import Mathlib

/-!
Verification of the qcom ramdump driver (`drivers/soc/qcom/ramdump.c`).

This file shallowly embeds the driver's data model and operations in Lean:

* `Segment` embeds `struct ramdump_segment` (declared in the out-of-tree
  header `soc/qcom/ramdump.h`; field list and the u64 widths of
  `address`/`size` are those used by `ramdump.c` and documented in the
  design spec, section 3).
* `RamdumpDevice` embeds the fields of `struct ramdump_device` that the
  dump/read logic touches.  Kernel plumbing (cdev, locks, wait queues,
  SRCU handles) carries no data and is not represented; blocking and
  concurrency are represented by explicit oracle records that stand for
  the behaviour of the environment (allocator results, wait outcomes,
  concurrent reader activity during the producer's wait).
* Machine integers are `Nat` with explicit `% 2^w` where C truncation or
  wrap-around matters (`u64` arithmetic, stores into 32-bit ELF fields);
  `atomic_t`/`int` status fields are `Int`.

Definitions are transcribed from the C source; line references are given
next to each definition.
-/

/-- Modulus of a 64-bit machine word (`unsigned long` / `size_t` on arm64). -/
def U64 : Nat := 2 ^ 64

/-- Modulus of a 32-bit machine word (the ELF32 field types). -/
def U32 : Nat := 2 ^ 32

/-- u64 subtraction `a - b` as computed by C unsigned arithmetic. -/
def sub64 (a b : Nat) : Nat := (a + U64 - b) % U64

/-- errno `EPIPE` (returned by `_do_ramdump`/`_do_minidump` on no consumers,
timeout and failed sessions). -/
def EPIPE : Int := 32

/-- errno `ENOMEM`. -/
def ENOMEM : Int := 12

/-- errno `EFAULT`. -/
def EFAULT : Int := 14

/-- errno `ETIME` (returned to a reader that observes an aborted dump). -/
def ETIME : Int := 62

/-- errno `EAGAIN` (non-blocking read with no data ready). -/
def EAGAIN : Int := 11

/-- errno `ERESTARTSYS` (interrupted `wait_event_interruptible`). -/
def ERESTARTSYS : Int := 512

/-- `MAX_IOREMAP_SIZE` = `SZ_1M` (ramdump.c line 154): per-call chunk bound
for the segment-memory copy. -/
def MAX_IOREMAP_SIZE : Nat := 2 ^ 20

/-- `MAX_STRTBL_SIZE` (ramdump.c line 37). -/
def MAX_STRTBL_SIZE : Nat := 512

/-- `MAX_NAME_LENGTH` (ramdump.c line 38): `strlcpy` bound for section names. -/
def MAX_NAME_LENGTH : Nat := 16

/-- Embeds `struct ramdump_segment` (fields as used by ramdump.c; the
spec, section 3, gives `address`/`size` as u64).  `name` holds the bytes of
the C string (without its NUL terminator), `none` for a NULL pointer;
`v_address` is `none` for NULL, `some p` for a mapped virtual base address. -/
structure Segment where
  name : Option (List Nat)
  address : Nat
  v_address : Option Nat
  size : Nat
deriving Repr, DecidableEq

/-- Default segment used with `List.getD`. -/
def seg0 : Segment := ⟨none, 0, none, 0⟩

/-- Sum of the declared sizes of a segment list (the logical stream length
past the header). -/
def sumSizes (segs : List Segment) : Nat := (segs.map Segment.size).sum

/-- Embeds the complete-ramdump compaction loop, ramdump.c lines 460-464:

    for (i = 0; i < nsegments-1; i++)
        segments[i].size = segments[i+1].address - segments[i].address;

Each iteration reads only the (never written) `address` fields, so the
in-place update is the pure rewrite below.  The subtraction is u64
machine subtraction. -/
def compactSegments : List Segment → List Segment
  | [] => []
  | [s] => [s]
  | s :: s' :: rest =>
    { s with size := sub64 s'.address s.address } :: compactSegments (s' :: rest)

theorem compactSegments_length (segs : List Segment) :
    (compactSegments segs).length = segs.length := by
  induction segs with
  | nil => rfl
  | cons s rest ih =>
    cases rest with
    | nil => rfl
    | cons s' rest' => simpa [compactSegments] using ih

theorem compactSegments_getD (segs : List Segment) (i : Nat) :
    (compactSegments segs).getD i seg0 =
      if i + 1 < segs.length then
        { segs.getD i seg0 with
            size := sub64 ((segs.getD (i+1) seg0).address) ((segs.getD i seg0).address) }
      else segs.getD i seg0 := by
  induction segs generalizing i with
  | nil => simp [compactSegments]
  | cons s rest ih =>
    cases rest with
    | nil =>
      cases i <;> simp [compactSegments]
    | cons s' rest' =>
      cases i with
      | zero => simp [compactSegments]
      | succ i' =>
        have := ih i'
        simp only [compactSegments, List.getD_cons_succ, List.length_cons] at this ⊢
        rw [this]
        have hiff : i' + 1 < rest'.length + 1 ↔ i' + 1 + 1 < rest'.length + 1 + 1 := by omega
        by_cases h : i' + 1 < rest'.length + 1
        · rw [if_pos h, if_pos (hiff.mp h)]
        · rw [if_neg h, if_neg (fun hc => h (hiff.mpr hc))]

theorem sub64_eq_sub (a b : Nat) (hba : b ≤ a) (ha : a < U64) : sub64 a b = a - b := by
  unfold sub64
  have h1 : a + U64 - b = U64 + (a - b) := by omega
  rw [h1, Nat.add_mod_left, Nat.mod_eq_of_lt (by omega)]

/-- Claim C6: with `want_compaction` (`complete_ramdump`), the dump request
rewrites `segments[i].size` to `segments[i+1].address - segments[i].address`
for every `i < n-1` (u64 machine subtraction, which equals the plain
difference whenever the addresses ascend and fit in 64 bits), leaves the
last segment's size as given, and modifies no addresses, names or mapped
pointers (ramdump.c lines 460-464). -/
theorem compaction_rewrites_gap_sizes (segs : List Segment) (i : Nat)
    (h : i + 1 < segs.length) :
    (compactSegments segs).length = segs.length ∧
    ((compactSegments segs).getD i seg0).size =
      sub64 ((segs.getD (i+1) seg0).address) ((segs.getD i seg0).address) ∧
    (((segs.getD i seg0).address ≤ (segs.getD (i+1) seg0).address →
      (segs.getD (i+1) seg0).address < U64 →
      ((compactSegments segs).getD i seg0).size =
        (segs.getD (i+1) seg0).address - (segs.getD i seg0).address)) ∧
    (∀ j, ((compactSegments segs).getD j seg0).address = (segs.getD j seg0).address ∧
          ((compactSegments segs).getD j seg0).name = (segs.getD j seg0).name ∧
          ((compactSegments segs).getD j seg0).v_address = (segs.getD j seg0).v_address) ∧
    ((compactSegments segs).getD (segs.length - 1) seg0).size =
      (segs.getD (segs.length - 1) seg0).size := by
  refine ⟨compactSegments_length segs, ?_, ?_, ?_, ?_⟩
  · rw [compactSegments_getD, if_pos h]
  · intro hle hlt
    rw [compactSegments_getD, if_pos h, sub64_eq_sub _ _ hle hlt]
  · intro j
    rw [compactSegments_getD]
    by_cases hj : j + 1 < segs.length
    · rw [if_pos hj]; exact ⟨rfl, rfl, rfl⟩
    · rw [if_neg hj]; exact ⟨rfl, rfl, rfl⟩
  · rw [compactSegments_getD, if_neg (by omega)]

/-- Witness for `compaction_rewrites_gap_sizes` at the two-segment list
`[(0x1000, 0x100), (0x2000, 0x200)]`: the first size becomes the gap
0x1000 and the second stays 0x200. -/
theorem compaction_rewrites_gap_sizes_witness :
    ((compactSegments [⟨none, 0x1000, none, 0x100⟩, ⟨none, 0x2000, none, 0x200⟩]).getD 0 seg0).size =
      sub64 0x2000 0x1000 ∧
    ((compactSegments [⟨none, 0x1000, none, 0x100⟩, ⟨none, 0x2000, none, 0x200⟩]).getD 1 seg0).size =
      0x200 := by
  have h := compaction_rewrites_gap_sizes
    [⟨none, 0x1000, none, 0x100⟩, ⟨none, 0x2000, none, 0x200⟩] 0 (by decide)
  exact ⟨h.2.1, h.2.2.2.2⟩

/-- ELF constant `PT_LOAD`. -/
def PT_LOAD : Nat := 1

/-- `PF_R | PF_W | PF_X` (4 + 2 + 1). -/
def PF_RWX : Nat := 7

/-- `sizeof(Elf32_Ehdr)`. -/
def elf32EhdrSize : Nat := 52

/-- `sizeof(Elf32_Phdr)`. -/
def elf32PhdrSize : Nat := 32

/-- `rd_dev->elfcore_size = sizeof(*ehdr) + sizeof(*phdr) * nsegments`
(ramdump.c lines 470-471). -/
def elf32HeaderSize (n : Nat) : Nat := elf32EhdrSize + elf32PhdrSize * n

/-- Embeds `Elf32_Phdr`.  All fields are 32-bit (`Elf32_Word`/`Elf32_Addr`/
`Elf32_Off`), so values stored into them are reduced `% U32`. -/
structure Elf32Phdr where
  p_type : Nat
  p_offset : Nat
  p_vaddr : Nat
  p_paddr : Nat
  p_filesz : Nat
  p_memsz : Nat
  p_flags : Nat
  p_align : Nat
deriving Repr, DecidableEq

/-- Default (all-zero, as left by `kzalloc`) program header, for `List.getD`. -/
def phdr0 : Elf32Phdr := ⟨0, 0, 0, 0, 0, 0, 0, 0⟩

/-- Embeds the program-header loop of `_do_ramdump`, ramdump.c lines 491-500:

    offset = rd_dev->elfcore_size;
    for (i = 0; i < nsegments; i++, phdr++) {
        phdr->p_type = PT_LOAD;
        phdr->p_offset = offset;
        phdr->p_vaddr = phdr->p_paddr = segments[i].address;
        phdr->p_filesz = phdr->p_memsz = segments[i].size;
        phdr->p_flags = PF_R | PF_W | PF_X;
        offset += phdr->p_filesz;
    }

`offset` is an `unsigned long` (u64) accumulator; each store into the u32
program-header field truncates, and `offset += phdr->p_filesz` reads the
truncated 32-bit value back. -/
def buildElf32Phdrs : List Segment → Nat → List Elf32Phdr
  | [], _ => []
  | s :: rest, off =>
    { p_type := PT_LOAD, p_offset := off % U32, p_vaddr := s.address % U32,
      p_paddr := s.address % U32, p_filesz := s.size % U32, p_memsz := s.size % U32,
      p_flags := PF_RWX, p_align := 0 } ::
    buildElf32Phdrs rest ((off + s.size % U32) % U64)

/-- Embeds the `Elf32_Ehdr` fields assigned by ramdump.c lines 479-489
(`e_machine` is left at the `kzalloc` zero; `e_phnum` is an `Elf32_Half`). -/
structure Elf32Ehdr where
  ei_mag : List Nat
  ei_class : Nat
  ei_data : Nat
  ei_version : Nat
  ei_osabi : Nat
  e_type : Nat
  e_machine : Nat
  e_version : Nat
  e_phoff : Nat
  e_ehsize : Nat
  e_phentsize : Nat
  e_phnum : Nat
deriving Repr, DecidableEq

/-- ELF32 file header as filled in by `_do_ramdump` for `n` segments. -/
def buildElf32Ehdr (n : Nat) : Elf32Ehdr :=
  { ei_mag := [127, 69, 76, 70], ei_class := 1, ei_data := 1, ei_version := 1,
    ei_osabi := 0, e_type := 4, e_machine := 0, e_version := 1,
    e_phoff := elf32EhdrSize, e_ehsize := elf32EhdrSize,
    e_phentsize := elf32PhdrSize, e_phnum := n % 2 ^ 16 }

/-- The full ELF32 core header synthesised by `_do_ramdump` when `use_elf`:
file header followed by one program header per segment, first file offset
right past the header block. -/
def buildElf32Header (segs : List Segment) : Elf32Ehdr × List Elf32Phdr :=
  (buildElf32Ehdr segs.length, buildElf32Phdrs segs (elf32HeaderSize segs.length))

/-- Sum of the 32-bit-truncated sizes of a segment list (what the u64
`offset` accumulator actually adds up). -/
def sumSizesTrunc (segs : List Segment) : Nat := (segs.map (fun s => s.size % U32)).sum

theorem u32_dvd_u64 : U32 ∣ U64 := by
  unfold U32 U64
  exact pow_dvd_pow 2 (by norm_num)

theorem addMod32_of_mod64 (a x : Nat) : (a % U64 + x) % U32 = (a + x) % U32 := by
  rw [Nat.add_mod, Nat.mod_mod_of_dvd a u32_dvd_u64, ← Nat.add_mod]

theorem buildElf32Phdrs_length (segs : List Segment) (off : Nat) :
    (buildElf32Phdrs segs off).length = segs.length := by
  induction segs generalizing off with
  | nil => rfl
  | cons s rest ih => simp [buildElf32Phdrs, ih]

theorem buildElf32Phdrs_getD (segs : List Segment) (off i : Nat) (hi : i < segs.length) :
    (buildElf32Phdrs segs off).getD i phdr0 =
      { p_type := PT_LOAD,
        p_offset := (off + sumSizesTrunc (segs.take i)) % U32,
        p_vaddr := (segs.getD i seg0).address % U32,
        p_paddr := (segs.getD i seg0).address % U32,
        p_filesz := (segs.getD i seg0).size % U32,
        p_memsz := (segs.getD i seg0).size % U32,
        p_flags := PF_RWX, p_align := 0 } := by
  induction segs generalizing off i with
  | nil => simp at hi
  | cons s rest ih =>
    cases i with
    | zero => simp [buildElf32Phdrs, sumSizesTrunc]
    | succ i' =>
      have hi' : i' < rest.length := by simpa using hi
      have := ih ((off + s.size % U32) % U64) i' hi'
      simp only [buildElf32Phdrs, List.getD_cons_succ, List.take_succ_cons,
        List.getD_cons_succ] at this ⊢
      rw [this]
      have : sumSizesTrunc (s :: rest.take i') = s.size % U32 + sumSizesTrunc (rest.take i') := by
        simp [sumSizesTrunc]
      rw [this, addMod32_of_mod64]
      ring_nf

theorem sumSizes_take_le (segs : List Segment) (i : Nat) :
    sumSizes (segs.take i) ≤ sumSizes segs := by
  have h : sumSizes segs = sumSizes (segs.take i) + sumSizes (segs.drop i) := by
    conv_lhs => rw [← List.take_append_drop i segs]
    simp [sumSizes]
  omega

/-- Claim C3 (amended): in ELF32 core mode the synthesised header is one
ELF32 file header (program table at offset 52, entry size 32) followed by
exactly `N` program headers in segment order; program header `i` has
`p_type = PT_LOAD`, RWX flags, `p_vaddr = p_paddr = address mod 2^32`,
`p_filesz = p_memsz = size mod 2^32`, and `p_offset` equal to the running
total `(52 + 32*N + Σ_{j<i} (size_j mod 2^32)) mod 2^32` — the stores
truncate to the 32-bit ELF32 fields.  Whenever every address and size fits
in 32 bits and the whole running total stays below `2^32`, these equal the
untruncated values of the original claim. -/
theorem elf32_header_layout (segs : List Segment) (i : Nat) (hi : i < segs.length) :
    (buildElf32Header segs).2.length = segs.length ∧
    (buildElf32Header segs).1.e_phoff = elf32EhdrSize ∧
    (buildElf32Header segs).1.e_phentsize = elf32PhdrSize ∧
    ((buildElf32Header segs).2.getD i phdr0).p_type = PT_LOAD ∧
    ((buildElf32Header segs).2.getD i phdr0).p_flags = PF_RWX ∧
    ((buildElf32Header segs).2.getD i phdr0).p_vaddr = (segs.getD i seg0).address % U32 ∧
    ((buildElf32Header segs).2.getD i phdr0).p_paddr = (segs.getD i seg0).address % U32 ∧
    ((buildElf32Header segs).2.getD i phdr0).p_filesz = (segs.getD i seg0).size % U32 ∧
    ((buildElf32Header segs).2.getD i phdr0).p_memsz = (segs.getD i seg0).size % U32 ∧
    ((buildElf32Header segs).2.getD i phdr0).p_offset =
      (elf32HeaderSize segs.length + sumSizesTrunc (segs.take i)) % U32 ∧
    ((∀ s ∈ segs, s.address < U32 ∧ s.size < U32) →
      elf32HeaderSize segs.length + sumSizes segs < U32 →
      ((buildElf32Header segs).2.getD i phdr0).p_vaddr = (segs.getD i seg0).address ∧
      ((buildElf32Header segs).2.getD i phdr0).p_filesz = (segs.getD i seg0).size ∧
      ((buildElf32Header segs).2.getD i phdr0).p_offset =
        elf32HeaderSize segs.length + sumSizes (segs.take i)) := by
  have hmain := buildElf32Phdrs_getD segs (elf32HeaderSize segs.length) i hi
  have hlen : (buildElf32Header segs).2.length = segs.length :=
    buildElf32Phdrs_length segs _
  refine ⟨hlen, rfl, rfl, ?_, ?_, ?_, ?_, ?_, ?_, ?_, ?_⟩
  · show ((buildElf32Phdrs segs _).getD i phdr0).p_type = PT_LOAD
    rw [hmain]
  · show ((buildElf32Phdrs segs _).getD i phdr0).p_flags = PF_RWX
    rw [hmain]
  · show ((buildElf32Phdrs segs _).getD i phdr0).p_vaddr = _
    rw [hmain]
  · show ((buildElf32Phdrs segs _).getD i phdr0).p_paddr = _
    rw [hmain]
  · show ((buildElf32Phdrs segs _).getD i phdr0).p_filesz = _
    rw [hmain]
  · show ((buildElf32Phdrs segs _).getD i phdr0).p_memsz = _
    rw [hmain]
  · show ((buildElf32Phdrs segs _).getD i phdr0).p_offset = _
    rw [hmain]
  · intro hsmall hbound
    have hmem : segs.getD i seg0 ∈ segs := by
      rw [List.getD_eq_getElem segs seg0 hi]
      exact List.getElem_mem hi
    have haddr : (segs.getD i seg0).address % U32 = (segs.getD i seg0).address :=
      Nat.mod_eq_of_lt (hsmall _ hmem).1
    have hsz : (segs.getD i seg0).size % U32 = (segs.getD i seg0).size :=
      Nat.mod_eq_of_lt (hsmall _ hmem).2
    have htrunc : sumSizesTrunc (segs.take i) = sumSizes (segs.take i) := by
      unfold sumSizesTrunc sumSizes
      congr 1
      refine List.map_congr_left (fun s hs => ?_)
      exact Nat.mod_eq_of_lt (hsmall s (List.take_subset i segs hs)).2
    have hoffb : elf32HeaderSize segs.length + sumSizes (segs.take i) < U32 := by
      have := sumSizes_take_le segs i
      omega
    refine ⟨?_, ?_, ?_⟩
    · show ((buildElf32Phdrs segs _).getD i phdr0).p_vaddr = _
      rw [hmain]; exact haddr
    · show ((buildElf32Phdrs segs _).getD i phdr0).p_filesz = _
      rw [hmain]; exact hsz
    · show ((buildElf32Phdrs segs _).getD i phdr0).p_offset = _
      rw [hmain]
      show (elf32HeaderSize segs.length + sumSizesTrunc (segs.take i)) % U32 = _
      rw [htrunc, Nat.mod_eq_of_lt hoffb]

/-- Counterexample to claim C3 as stated: for a segment at u64 address
`2^32`, the stored `p_vaddr` (an `Elf32_Addr`, i.e. u32) is 0, not the
segment's address, because the assignment truncates. -/
theorem elf32_header_layout_cx :
    ((buildElf32Header [⟨none, 2 ^ 32, none, 256⟩]).2.getD 0 phdr0).p_vaddr ≠
      (([⟨none, 2 ^ 32, none, 256⟩] : List Segment).getD 0 seg0).address := by
  decide

/-- Witness for `elf32_header_layout`: the round-trip example
`[(0x1000, 0x100), (0x2000, 0x200)]` yields exactly 2 program headers with
`p_filesz` 0x200 for the second one and its `p_offset` right past the
ELF + 2-phdr block plus the first segment's size. -/
theorem elf32_header_layout_witness :
    (buildElf32Header [⟨none, 0x1000, none, 0x100⟩, ⟨none, 0x2000, none, 0x200⟩]).2.length = 2 ∧
    ((buildElf32Header [⟨none, 0x1000, none, 0x100⟩, ⟨none, 0x2000, none, 0x200⟩]).2.getD 1
        phdr0).p_filesz = 0x200 ∧
    ((buildElf32Header [⟨none, 0x1000, none, 0x100⟩, ⟨none, 0x2000, none, 0x200⟩]).2.getD 1
        phdr0).p_offset = elf32HeaderSize 2 + 0x100 := by
  have h := elf32_header_layout
    [⟨none, 0x1000, none, 0x100⟩, ⟨none, 0x2000, none, 0x200⟩] 1 (by decide)
  have hn := h.2.2.2.2.2.2.2.2.2.2 (by decide) (by decide)
  refine ⟨h.1, ?_, ?_⟩
  · rw [hn.2.1]; decide
  · rw [hn.2.2]; decide

/-- ELF constant `SHT_PROGBITS`. -/
def SHT_PROGBITS : Nat := 1

/-- ELF constant `SHT_STRTAB`. -/
def SHT_STRTAB : Nat := 3

/-- ELF constant `SHF_WRITE`. -/
def SHF_WRITE : Nat := 1

/-- `sizeof(struct elfhdr)` for the native (arm64, ELF64) format used by
`_do_minidump`. -/
def elfNativeEhdrSize : Nat := 64

/-- `sizeof(struct elf_shdr)` for the native (arm64, ELF64) format. -/
def elfNativeShdrSize : Nat := 64

/-- `rd_dev->elfcore_size` computed by `_do_minidump`, ramdump.c lines
589-590: ehdr + (n+2) section headers + the fixed 512-byte string table. -/
def minidumpHeaderSize (n : Nat) : Nat :=
  elfNativeEhdrSize + elfNativeShdrSize * (n + 2) + MAX_STRTBL_SIZE

/-- The bytes of the literal `"STR_TBL"`. -/
def strTblName : List Nat := [83, 84, 82, 95, 84, 66, 76]

/-- Embeds the `struct elf_shdr` fields assigned by `_do_minidump`
(`sh_addr`/`sh_offset`/`sh_size` are 64-bit in the native format, so no
truncation happens on store). -/
structure ElfShdr where
  sh_name : Nat
  sh_type : Nat
  sh_flags : Nat
  sh_addr : Nat
  sh_offset : Nat
  sh_size : Nat
  sh_entsize : Nat
deriving Repr, DecidableEq

/-- Default (all-zero, `kzalloc`) section header, for `List.getD`. -/
def shdr0 : ElfShdr := ⟨0, 0, 0, 0, 0, 0, 0⟩

/-- Semantics of copying the byte list `bs` into a byte store at position
`i` (the effect of `strlcpy`'s copy on the string-table buffer).  The
string table is modelled as a total function with the `kzalloc` zero
default; ramdump.c never bounds-checks against `MAX_STRTBL_SIZE`, so the
store is modelled unbounded. -/
def writeBytes (tab : Nat → Nat) (i : Nat) (bs : List Nat) : Nat → Nat :=
  fun j => if i ≤ j ∧ j < i + bs.length then bs.getD (j - i) 0 else tab j

/-- Embeds `set_section_name`, ramdump.c lines 538-554:

    idx = *strtable_idx;
    if ((strtab == NULL) || (name == NULL)) return 0;
    ret = idx;
    idx += strlcpy((strtab + idx), name, MAX_NAME_LENGTH);
    *strtable_idx = idx + 1;
    return ret;

`strlcpy(dst, src, 16)` stores at most 15 bytes of `src` plus a NUL
terminator but returns `strlen(src)` (the full, untruncated length), so
the running index advances by `strlen(name) + 1` even when the stored
entry is only 16 bytes.  Returns `(sh_name value, new table, new index)`. -/
def set_section_name : Option (List Nat) → (Nat → Nat) → Nat → Nat × (Nat → Nat) × Nat
  | none, tab, idx => (0, tab, idx)
  | some nm, tab, idx =>
    (idx, writeBytes tab idx (nm.take (MAX_NAME_LENGTH - 1) ++ [0]), idx + nm.length + 1)

/-- Embeds the per-segment section-header loop of `_do_minidump`,
ramdump.c lines 624-635, threading the string-table state and the running
file offset (a u64 accumulator). -/
def mdFold : List Segment → Nat → Nat → (Nat → Nat) → List ElfShdr × Nat × (Nat → Nat)
  | [], _, idx, tab => ([], idx, tab)
  | s :: rest, off, idx, tab =>
    let t := set_section_name s.name tab idx
    let r := mdFold rest ((off + s.size) % U64) t.2.2 t.2.1
    ({ sh_name := t.1, sh_type := SHT_PROGBITS, sh_flags := SHF_WRITE,
       sh_addr := s.address, sh_offset := off, sh_size := s.size, sh_entsize := 0 } :: r.1,
     r.2.1, r.2.2)

/-- The minidump/section-mode core header synthesised by `_do_minidump`
(ramdump.c lines 589-636): native ELF file header data, section headers
(section 0 null, section 1 the string table, then one `SHT_PROGBITS`
section per segment), the string table and its final running index. -/
structure MiniHeader where
  ei_class : Nat
  ei_data : Nat
  ei_osabi : Nat
  e_type : Nat
  e_machine : Nat
  e_version : Nat
  e_ehsize : Nat
  e_shoff : Nat
  e_shentsize : Nat
  e_shstrndx : Nat
  e_shnum : Nat
  shdrs : List ElfShdr
  strtab : Nat → Nat
  strtabIdx : Nat

/-- Embeds `_do_minidump`'s header construction for `n = segs.length`
segments.  The string-table index starts at 1 (byte 0 stays NUL), the
`"STR_TBL"` name is interned for section 1, and the first segment's
section offset starts at the full header size.  The native-format
constants are the arm64 values (`ELF_CLASS`=2, `ELF_DATA`=1 (LSB),
`ELF_OSABI`=0, `ELF_ARCH`=183). -/
def buildMinidumpHeader (segs : List Segment) : MiniHeader :=
  let n := segs.length
  let t1 := set_section_name (some strTblName) (fun _ => 0) 1
  let strShdr : ElfShdr :=
    { sh_name := t1.1, sh_type := SHT_STRTAB, sh_flags := 0, sh_addr := 0,
      sh_offset := elfNativeEhdrSize + elfNativeShdrSize * (n + 2),
      sh_size := MAX_STRTBL_SIZE, sh_entsize := 0 }
  let r := mdFold segs (minidumpHeaderSize n) t1.2.2 t1.2.1
  { ei_class := 2, ei_data := 1, ei_osabi := 0, e_type := 4, e_machine := 183,
    e_version := 1, e_ehsize := elfNativeEhdrSize, e_shoff := elfNativeEhdrSize,
    e_shentsize := elfNativeShdrSize, e_shstrndx := 1, e_shnum := n + 2,
    shdrs := shdr0 :: strShdr :: r.1, strtab := r.2.2, strtabIdx := r.2.1 }

/-- Reads a NUL-terminated string out of the string table starting at
byte `i` (fuel-bounded; `MAX_NAME_LENGTH` fuel suffices for any interned
entry, which is at most 15 bytes plus terminator). -/
def readNameAux (tab : Nat → Nat) : Nat → Nat → List Nat
  | _, 0 => []
  | i, fuel + 1 => if tab i = 0 then [] else tab i :: readNameAux tab (i + 1) fuel

/-- Resolve a string-table offset to the stored C string. -/
def readName (tab : Nat → Nat) (i : Nat) : List Nat := readNameAux tab i MAX_NAME_LENGTH

/-- Name bytes of a segment (`[]` for a NULL name pointer). -/
def nameBytes (s : Segment) : List Nat := s.name.getD []

/-- Cumulative string-table offset consumed by the first `i` segment
names: each advances the index by `strlen(name) + 1`. -/
def nameOffAcc (segs : List Segment) (i : Nat) : Nat :=
  ((segs.take i).map (fun s => (nameBytes s).length + 1)).sum

theorem nameOffAcc_cons (s : Segment) (rest : List Segment) (i : Nat) :
    nameOffAcc (s :: rest) (i + 1) = ((nameBytes s).length + 1) + nameOffAcc rest i := by
  simp [nameOffAcc, List.take_succ_cons]

theorem nameOffAcc_succ (segs : List Segment) (i : Nat) (h : i < segs.length) :
    nameOffAcc segs (i + 1) =
      nameOffAcc segs i + ((nameBytes (segs.getD i seg0)).length + 1) := by
  induction segs generalizing i with
  | nil => simp at h
  | cons s rest ih =>
    cases i with
    | zero => simp [nameOffAcc]
    | succ i' =>
      have hrec := ih i' (by simpa using h)
      rw [nameOffAcc_cons, nameOffAcc_cons, hrec]
      simp only [List.getD_cons_succ]
      omega

theorem getD_take (l : List Nat) (n i d : Nat) (h : i < n) :
    (l.take n).getD i d = l.getD i d := by
  induction l generalizing n i with
  | nil => simp
  | cons a t ih =>
    cases n with
    | zero => omega
    | succ n' =>
      cases i with
      | zero => simp
      | succ i' => simpa using ih n' i' (by omega)

theorem readNameAux_spec (bs : List Nat) :
    ∀ (tab : Nat → Nat) (i fuel : Nat), bs.length < fuel →
      (∀ k, k < bs.length → tab (i + k) = bs.getD k 0 ∧ bs.getD k 0 ≠ 0) →
      tab (i + bs.length) = 0 →
      readNameAux tab i fuel = bs := by
  induction bs with
  | nil =>
    intro tab i fuel hf _ hend
    cases fuel with
    | zero => omega
    | succ f =>
      simp only [readNameAux]
      rw [if_pos (by simpa using hend)]
  | cons b bs' ih =>
    intro tab i fuel hf hk hend
    cases fuel with
    | zero => omega
    | succ f =>
      have h0 := hk 0 (by simp)
      simp only [List.getD_cons_zero, Nat.add_zero] at h0
      simp only [readNameAux]
      rw [h0.1, if_neg h0.2]
      congr 1
      refine ih tab (i + 1) f (by simpa using hf) ?_ ?_
      · intro k hk'
        have h' := hk (k + 1) (by simpa using Nat.succ_lt_succ hk')
        simp only [List.getD_cons_succ] at h'
        refine ⟨?_, h'.2⟩
        rw [show i + 1 + k = i + (k + 1) by omega]
        exact h'.1
      · rw [show i + 1 + bs'.length = i + (b :: bs').length by simp; omega]
        exact hend

theorem mdFold_length (segs : List Segment) (off idx : Nat) (tab : Nat → Nat) :
    (mdFold segs off idx tab).1.length = segs.length := by
  induction segs generalizing off idx tab with
  | nil => rfl
  | cons s rest ih => simp [mdFold, ih]

theorem mdFold_tab_frame (segs : List Segment) :
    ∀ (off idx : Nat) (tab : Nat → Nat) (j : Nat), j < idx →
      (mdFold segs off idx tab).2.2 j = tab j := by
  induction segs with
  | nil => intro off idx tab j hj; rfl
  | cons s rest ih =>
    intro off idx tab j hj
    simp only [mdFold]
    cases hn : s.name with
    | none =>
      simp only [set_section_name, hn]
      exact ih _ _ _ _ hj
    | some nm =>
      simp only [set_section_name, hn]
      rw [ih _ _ _ _ (show j < idx + nm.length + 1 by omega)]
      show (if idx ≤ j ∧ _ then _ else tab j) = tab j
      rw [if_neg]
      rintro ⟨hc, -⟩
      omega

theorem writeBytes_inside (tab : Nat → Nat) (i : Nat) (bs : List Nat) (k : Nat)
    (hk : k < bs.length) : writeBytes tab i bs (i + k) = bs.getD k 0 := by
  show (if i ≤ i + k ∧ i + k < i + bs.length then bs.getD (i + k - i) 0 else _) = _
  rw [if_pos ⟨by omega, by omega⟩, show i + k - i = k by omega]

theorem writeBytes_outside (tab : Nat → Nat) (i : Nat) (bs : List Nat) (j : Nat)
    (hj : j < i ∨ i + bs.length ≤ j) : writeBytes tab i bs j = tab j := by
  show (if i ≤ j ∧ j < i + bs.length then _ else tab j) = tab j
  rw [if_neg]
  rintro ⟨h1, h2⟩
  omega

theorem mdFold_names (segs : List Segment) :
    ∀ (off idx : Nat) (tab : Nat → Nat),
      (∀ s ∈ segs, s.name ≠ none) →
      (∀ s ∈ segs, ∀ b ∈ nameBytes s, b ≠ 0) →
      (∀ j, idx ≤ j → tab j = 0) →
      ∀ i, i < segs.length →
        ((mdFold segs off idx tab).1.getD i shdr0).sh_name = idx + nameOffAcc segs i ∧
        readName (mdFold segs off idx tab).2.2 (idx + nameOffAcc segs i) =
          (nameBytes (segs.getD i seg0)).take 15 := by
  induction segs with
  | nil => intro off idx tab _ _ _ i hi; simp at hi
  | cons s rest ih =>
    intro off idx tab h1 h2 h3 i hi
    obtain ⟨nm, hnm⟩ : ∃ nm, s.name = some nm := by
      cases hs : s.name with
      | none => exact absurd hs (h1 s (List.mem_cons_self s rest))
      | some nm => exact ⟨nm, rfl⟩
    have hbs : ∀ b ∈ nm, b ≠ 0 := fun b hb =>
      h2 s (List.mem_cons_self s rest) b (by simpa [nameBytes, hnm] using hb)
    have hset : set_section_name s.name tab idx =
        (idx, writeBytes tab idx (nm.take 15 ++ [0]), idx + nm.length + 1) := by
      simp [set_section_name, hnm, MAX_NAME_LENGTH]
    have hlen15 : (nm.take 15).length = min 15 nm.length := List.length_take 15 nm
    have hbslen : (nm.take 15 ++ [0]).length = min 15 nm.length + 1 := by simp [hlen15]
    have hminle : min 15 nm.length ≤ nm.length := Nat.min_le_right 15 nm.length
    have h3' : ∀ j, idx + nm.length + 1 ≤ j →
        writeBytes tab idx (nm.take 15 ++ [0]) j = 0 := by
      intro j hj
      rw [writeBytes_outside _ _ _ _ (Or.inr (by rw [hbslen]; omega))]
      exact h3 j (by omega)
    cases i with
    | zero =>
      refine ⟨?_, ?_⟩
      · simp [mdFold, hset, nameOffAcc]
      · have hfold : (mdFold (s :: rest) off idx tab).2.2 =
            (mdFold rest ((off + s.size) % U64) (idx + nm.length + 1)
              (writeBytes tab idx (nm.take 15 ++ [0]))).2.2 := by
          simp [mdFold, hset]
        rw [hfold, show idx + nameOffAcc (s :: rest) 0 = idx by simp [nameOffAcc]]
        rw [show nameBytes ((s :: rest).getD 0 seg0) = nm by simp [nameBytes, hnm]]
        unfold readName
        apply readNameAux_spec
        · rw [hlen15, MAX_NAME_LENGTH]; omega
        · intro k hk
          rw [hlen15] at hk
          rw [mdFold_tab_frame rest _ _ _ _ (by omega)]
          rw [writeBytes_inside _ _ _ _ (by rw [hbslen]; omega)]
          rw [List.getD_append _ _ _ _ (by rw [hlen15]; omega)]
          refine ⟨rfl, ?_⟩
          rw [getD_take _ _ _ _ (by omega)]
          have hkn : k < nm.length := by omega
          have hmem : nm.getD k 0 ∈ nm := by
            rw [List.getD_eq_getElem nm 0 hkn]
            exact List.getElem_mem hkn
          exact hbs _ hmem
        · rw [mdFold_tab_frame rest _ _ _ _ (by rw [hlen15]; omega)]
          rw [writeBytes_inside _ _ _ _ (by rw [hbslen, hlen15]; omega)]
          rw [List.getD_append_right _ _ _ _ (Nat.le_refl _)]
          simp
    | succ i' =>
      have hi' : i' < rest.length := by simpa using hi
      have hih := ih ((off + s.size) % U64) (idx + nm.length + 1)
        (writeBytes tab idx (nm.take 15 ++ [0]))
        (fun t ht => h1 t (List.mem_cons_of_mem s ht))
        (fun t ht => h2 t (List.mem_cons_of_mem s ht))
        h3' i' hi'
      have hshift : idx + nameOffAcc (s :: rest) (i' + 1) =
          (idx + nm.length + 1) + nameOffAcc rest i' := by
        rw [nameOffAcc_cons]
        simp [nameBytes, hnm]
        omega
      refine ⟨?_, ?_⟩
      · have hfold : (mdFold (s :: rest) off idx tab).1.getD (i' + 1) shdr0 =
            (mdFold rest ((off + s.size) % U64) (idx + nm.length + 1)
              (writeBytes tab idx (nm.take 15 ++ [0]))).1.getD i' shdr0 := by
          simp [mdFold, hset]
        rw [hfold, hih.1, hshift]
      · have hfold : (mdFold (s :: rest) off idx tab).2.2 =
            (mdFold rest ((off + s.size) % U64) (idx + nm.length + 1)
              (writeBytes tab idx (nm.take 15 ++ [0]))).2.2 := by
          simp [mdFold, hset]
        rw [hfold, hshift, show nameBytes ((s :: rest).getD (i' + 1) seg0) =
          nameBytes (rest.getD i' seg0) by simp]
        exact hih.2

/-- Claim C4 (amended): in minidump/section mode the string-table entries
are stored at strictly increasing offsets, but each next entry starts at
the previous entry's offset plus the previous name's full untruncated
length plus one (the `strlcpy` return value), so a name longer than 15
bytes leaves a zero-filled gap after its stored 16-byte truncated form;
every name is stored truncated to at most 15 bytes plus NUL, and each
section header's `sh_name` offset resolves (by reading the table up to
the NUL) to exactly that possibly-truncated stored name.  The first
segment entry starts at offset 9, right after `"STR_TBL"`. -/
theorem minidump_strtab_names (segs : List Segment)
    (h1 : ∀ s ∈ segs, s.name ≠ none)
    (h2 : ∀ s ∈ segs, ∀ b ∈ nameBytes s, b ≠ 0) :
    (buildMinidumpHeader segs).shdrs.length = segs.length + 2 ∧
    (∀ i, i < segs.length →
      ((buildMinidumpHeader segs).shdrs.getD (i + 2) shdr0).sh_name = 9 + nameOffAcc segs i) ∧
    (∀ i, i < segs.length →
      readName (buildMinidumpHeader segs).strtab
          (((buildMinidumpHeader segs).shdrs.getD (i + 2) shdr0).sh_name) =
        (nameBytes (segs.getD i seg0)).take 15) ∧
    (∀ i, i + 1 < segs.length →
      ((buildMinidumpHeader segs).shdrs.getD (i + 3) shdr0).sh_name =
        ((buildMinidumpHeader segs).shdrs.getD (i + 2) shdr0).sh_name +
          ((nameBytes (segs.getD i seg0)).length + 1)) := by
  have hset1 : set_section_name (some strTblName) (fun _ => 0) 1 =
      (1, writeBytes (fun _ => 0) 1 (strTblName.take 15 ++ [0]), 9) := by
    simp [set_section_name, strTblName, MAX_NAME_LENGTH]
  have hshdrs : (buildMinidumpHeader segs).shdrs =
      shdr0 ::
      { sh_name := 1, sh_type := SHT_STRTAB, sh_flags := 0, sh_addr := 0,
        sh_offset := elfNativeEhdrSize + elfNativeShdrSize * (segs.length + 2),
        sh_size := MAX_STRTBL_SIZE, sh_entsize := 0 } ::
      (mdFold segs (minidumpHeaderSize segs.length) 9
        (writeBytes (fun _ => 0) 1 (strTblName.take 15 ++ [0]))).1 := by
    simp [buildMinidumpHeader, hset1]
  have htab : (buildMinidumpHeader segs).strtab =
      (mdFold segs (minidumpHeaderSize segs.length) 9
        (writeBytes (fun _ => 0) 1 (strTblName.take 15 ++ [0]))).2.2 := by
    simp [buildMinidumpHeader, hset1]
  have h3 : ∀ j, 9 ≤ j → writeBytes (fun _ => 0) 1 (strTblName.take 15 ++ [0]) j = 0 := by
    intro j hj
    rw [writeBytes_outside]
    right
    show 1 + (strTblName.take 15 ++ [0]).length ≤ j
    have : (strTblName.take 15 ++ [0]).length = 8 := by decide
    omega
  have hmain := mdFold_names segs (minidumpHeaderSize segs.length) 9
    (writeBytes (fun _ => 0) 1 (strTblName.take 15 ++ [0])) h1 h2 h3
  refine ⟨?_, ?_, ?_, ?_⟩
  · rw [hshdrs]
    simp [mdFold_length]
  · intro i hi
    rw [hshdrs]
    simpa using (hmain i hi).1
  · intro i hi
    rw [hshdrs, htab]
    have hn := (hmain i hi).1
    simp only [List.getD_cons_succ] at hn ⊢
    rw [hn]
    exact (hmain i hi).2
  · intro i hi
    rw [hshdrs]
    have ha := (hmain i (by omega)).1
    have hb := (hmain (i + 1) hi).1
    simp only [List.getD_cons_succ] at ha hb ⊢
    rw [ha, hb, nameOffAcc_succ segs i (by omega)]
    omega

/-- Counterexample to claim C4 as stated: with a first segment named by
20 bytes, the second segment's `sh_name` offset is 30, not 25 = previous
offset + stored (truncated) entry length, because `strlcpy` returns the
untruncated length — the entries are not packed without gaps. -/
theorem minidump_strtab_names_cx :
    ((buildMinidumpHeader [⟨some (List.replicate 20 65), 4096, none, 256⟩,
        ⟨some [88], 8192, none, 256⟩]).shdrs.getD 3 shdr0).sh_name ≠
      ((buildMinidumpHeader [⟨some (List.replicate 20 65), 4096, none, 256⟩,
          ⟨some [88], 8192, none, 256⟩]).shdrs.getD 2 shdr0).sh_name +
        (min 15 (List.replicate 20 65).length + 1) := by
  decide

/-- Witness for `minidump_strtab_names`: a 20-character segment name is
stored truncated to its first 15 characters, its section's `sh_name`
offset (9) resolves to exactly that truncated string. -/
theorem minidump_strtab_names_witness :
    readName (buildMinidumpHeader [⟨some (List.replicate 20 65), 4096, none, 256⟩,
        ⟨some [88], 8192, none, 256⟩]).strtab
      (((buildMinidumpHeader [⟨some (List.replicate 20 65), 4096, none, 256⟩,
          ⟨some [88], 8192, none, 256⟩]).shdrs.getD 2 shdr0).sh_name) =
      List.replicate 15 65 ∧
    ((buildMinidumpHeader [⟨some (List.replicate 20 65), 4096, none, 256⟩,
        ⟨some [88], 8192, none, 256⟩]).shdrs.getD 2 shdr0).sh_name = 9 := by
  have h := minidump_strtab_names
    [⟨some (List.replicate 20 65), 4096, none, 256⟩, ⟨some [88], 8192, none, 256⟩]
    (by decide) (by decide)
  refine ⟨?_, ?_⟩
  · rw [h.2.2.1 0 (by decide)]
    decide
  · rw [h.2.1 0 (by decide)]
    decide

/-- A built core header held in `rd_dev->elfcore_buf` (NULL is `none` at
the `RamdumpDevice` level). -/
inductive CoreHeader
  | elf32Core (ehdr : Elf32Ehdr) (phdrs : List Elf32Phdr)
  | sectionCore (m : MiniHeader)

/-- Embeds the fields of `struct ramdump_device` (ramdump.c lines 46-68)
that the dump and read logic reads or writes.  `consumer_list` holds the
`data_ready` flag of each `consumer_entry` in list order; a consumer
handle is its index.  Plumbing-only fields (cdev, device, locks, wait
queue, SRCU handle, dma attrs, name) are omitted; the completion is the
`ramdump_complete` flag. -/
structure RamdumpDevice where
  consumers : Nat
  readers_left : Int
  ramdump_status : Int
  ramdump_complete : Bool
  consumer_list : List Bool
  nsegments : Nat
  segments : Option (List Segment)
  elfcore_size : Nat
  elfcore_buf : Option CoreHeader
  complete_ramdump : Bool
  abort_ramdump : Bool

/-- Embeds `ramdump_open`, ramdump.c lines 70-88: allocate a fresh entry
(`data_ready = false`), bump the consumer count, unconditionally zero
`ramdump_status`, and append the entry to the consumer list.  Returns the
new device state and the new entry's handle (its index). -/
def ramdump_open (dev : RamdumpDevice) : RamdumpDevice × Nat :=
  ({ dev with consumers := dev.consumers + 1, ramdump_status := 0,
              consumer_list := dev.consumer_list ++ [false] },
   dev.consumer_list.length)

/-- Embeds `reset_ramdump_entry`, ramdump.c lines 90-97: clear the
consumer's `data_ready`, decrement `readers_left`, and signal the
completion when the count reaches zero. -/
def reset_ramdump_entry (dev : RamdumpDevice) (idx : Nat) : RamdumpDevice :=
  let dev1 := { dev with consumer_list := dev.consumer_list.set idx false,
                         readers_left := dev.readers_left - 1 }
  if dev1.readers_left = 0 then { dev1 with ramdump_complete := true } else dev1

/-- A copy made to the consumer's buffer by one `read` call: a slice of
the core-header bytes, or a slice of device memory at a physical/mapped
source address. -/
inductive CopyOp
  | fromHeader (off len : Nat)
  | fromMem (addr len : Nat)
deriving Repr, DecidableEq

/-- Result of a `read` call: suspended on the wait queue (resumption not
modelled further), or returned with an `ssize_t` (bytes, or a negative
errno). -/
inductive ReadRet
  | blocked
  | done (r : Int)
deriving Repr, DecidableEq

/-- Full outcome of one `ramdump_read` call. -/
structure ReadOut where
  dev : RamdumpDevice
  pos : Nat
  ret : ReadRet
  ops : List CopyOp

/-- Environment behaviour for one `read` call: whether the interruptible
wait was interrupted by a signal, whether `dma_remap`/`vzalloc` succeed,
and whether either `copy_to_user` call faults (faults can only happen for
a nonzero copy length). -/
structure ReadOracle where
  interrupted : Bool
  remapOk : Bool
  vzallocOk : Bool
  userFaultHdr : Bool
  userFaultData : Bool

/-- The `ramdump_done` exit path of `ramdump_read` (ramdump.c lines
282-290): reset `*pos` to 0, reset the consumer entry, return `ret`. -/
def readDone (dev : RamdumpDevice) (idx : Nat) (r : Int) (ops : List CopyOp) : ReadOut :=
  ⟨reset_ramdump_entry dev idx, 0, ReadRet.done r, ops⟩

/-- Embeds `offset_translate`, ramdump.c lines 122-152: walk the segment
list subtracting each size while the offset reaches past it; past the end
return `data_left = 0`; otherwise return the translated physical address,
the bytes left in the found segment, and the optional mapped address.
Address arithmetic is u64. -/
def offset_translate (off : Nat) : List Segment → Nat × Nat × Option Nat
  | [] => (0, 0, none)
  | s :: rest =>
    if s.size ≤ off then offset_translate (off - s.size) rest
    else ((s.address + off) % U64, s.size - off,
          s.v_address.map (fun p => (p + off) % U64))

/-- Embeds the segment-data part of `ramdump_read`, ramdump.c lines
204-280: translate the offset, return 0 at end-of-stream (resetting the
consumer), bound the chunk by the caller's remaining count, by
`MAX_IOREMAP_SIZE` and by `data_left`, then fail like the C code when
mapping/allocation/copy-out fail, else advance `*pos` and return
`*pos - orig_pos`. -/
def ramdump_read_seg (dev : RamdumpDevice) (idx count pos origPos : Nat)
    (ops : List CopyOp) (o : ReadOracle) : ReadOut :=
  let t := offset_translate (pos - dev.elfcore_size) (dev.segments.getD [])
  if t.2.1 = 0 then
    readDone { dev with ramdump_status := 0 } idx 0 ops
  else
    let csz := min (min count MAX_IOREMAP_SIZE) t.2.1
    if t.2.2.isNone ∧ o.remapOk = false then
      readDone { dev with ramdump_status := -1 } idx (-ENOMEM) ops
    else if o.vzallocOk = false then
      readDone { dev with ramdump_status := -1 } idx (-ENOMEM) ops
    else if o.userFaultData = true then
      readDone { dev with ramdump_status := -1 } idx (-EFAULT) ops
    else
      ⟨dev, pos + csz, ReadRet.done (((pos + csz) - origPos : Nat) : Int),
        ops ++ [CopyOp.fromMem t.1 csz]⟩

/-- Embeds the header-serving part of `ramdump_read`, ramdump.c lines
187-202: while `*pos` lies inside the core header, copy from the header
buffer (bounded by the remaining requested length); a failed copy-out
takes the `ramdump_done` path (without touching `ramdump_status`); if the
request is fully satisfied return the header byte count, else continue
into the segment data. -/
def ramdump_read_hdr (dev : RamdumpDevice) (idx count pos : Nat) (o : ReadOracle) : ReadOut :=
  if pos < dev.elfcore_size then
    let csz := min (dev.elfcore_size - pos) count
    if o.userFaultHdr = true ∧ 0 < csz then
      readDone dev idx (-EFAULT) []
    else if count - csz = 0 then
      ⟨dev, pos + csz, ReadRet.done (csz : Int), [CopyOp.fromHeader pos csz]⟩
    else
      ramdump_read_seg dev idx (count - csz) (pos + csz) pos [CopyOp.fromHeader pos csz] o
  else
    ramdump_read_seg dev idx count pos pos [] o

/-- Embeds `ramdump_read`, ramdump.c lines 156-291: `-EAGAIN` for a
non-blocking call with no data ready; suspend until `data_ready` or
`abort_ramdump`; `-ERESTARTSYS` if the wait is interrupted; on a set
abort flag record a failed status and take the `ramdump_done` path with
`-ETIME`; otherwise serve header bytes and then segment data. -/
def ramdump_read (dev : RamdumpDevice) (idx : Nat) (nonblock : Bool) (count pos : Nat)
    (o : ReadOracle) : ReadOut :=
  let ready := dev.consumer_list.getD idx false
  if nonblock = true ∧ ready = false then ⟨dev, pos, ReadRet.done (-EAGAIN), []⟩
  else if ready = false ∧ dev.abort_ramdump = false then ⟨dev, pos, ReadRet.blocked, []⟩
  else if o.interrupted = true then ⟨dev, pos, ReadRet.done (-ERESTARTSYS), []⟩
  else if dev.abort_ramdump = true then
    readDone { dev with ramdump_status := -1 } idx (-ETIME) []
  else ramdump_read_hdr dev idx count pos o

/-- Claim C5 (amended): a read call that proceeds past the wait and
observes the abort flag fails with `-ETIME`, resets the consumer's
`data_ready` flag, records a failed session status, resets the file
position, and decrements the outstanding-reader count unconditionally —
even when the count was already decremented for this consumer (its
`data_ready` already false), with the completion signalled exactly when
the count reaches zero. -/
theorem read_abort_resets (dev : RamdumpDevice) (idx : Nat) (nb : Bool) (count pos : Nat)
    (o : ReadOracle)
    (habort : dev.abort_ramdump = true)
    (hint : o.interrupted = false)
    (hnb : nb = true → dev.consumer_list.getD idx false = true) :
    (ramdump_read dev idx nb count pos o).ret = ReadRet.done (-ETIME) ∧
    (ramdump_read dev idx nb count pos o).dev.readers_left = dev.readers_left - 1 ∧
    (ramdump_read dev idx nb count pos o).dev.consumer_list =
      dev.consumer_list.set idx false ∧
    (ramdump_read dev idx nb count pos o).pos = 0 ∧
    (ramdump_read dev idx nb count pos o).dev.ramdump_status = -1 ∧
    (dev.readers_left - 1 = 0 →
      (ramdump_read dev idx nb count pos o).dev.ramdump_complete = true) ∧
    (dev.readers_left - 1 ≠ 0 →
      (ramdump_read dev idx nb count pos o).dev.ramdump_complete = dev.ramdump_complete) := by
  by_cases hr : dev.consumer_list.getD idx false = true
  · have hr' : dev.consumer_list[idx]?.getD false = true := by simpa using hr
    by_cases hz : dev.readers_left - 1 = 0 <;>
      simp [ramdump_read, hr', habort, hint, readDone, reset_ramdump_entry, hz]
  · have hrf : dev.consumer_list.getD idx false = false := by
      cases h : dev.consumer_list.getD idx false
      · rfl
      · exact absurd h hr
    have hrf' : dev.consumer_list[idx]?.getD false = false := by simpa using hrf
    have hnb' : nb = false := by
      cases hb : nb
      · rfl
      · exact absurd (hnb hb) hr
    by_cases hz : dev.readers_left - 1 = 0 <;>
      simp [ramdump_read, hrf', hnb', habort, hint, readDone, reset_ramdump_entry, hz]

/-- Counterexample to claim C5 as stated: a consumer whose `data_ready`
is already false (its decrement already happened, e.g. after reading to
end-of-stream) issues a blocking read while the abort flag is set; the
claim says the outstanding-reader count is decremented only if not
already decremented for this consumer, but the code decrements it again
(from 0 to -1 here). -/
theorem read_abort_resets_cx :
    (⟨1, 0, 0, false, [false], 0, none, 0, none, false, true⟩ :
        RamdumpDevice).consumer_list.getD 0 false = false ∧
    (ramdump_read (⟨1, 0, 0, false, [false], 0, none, 0, none, false, true⟩ : RamdumpDevice)
        0 false 10 0 ⟨false, true, true, false, false⟩).dev.readers_left ≠
      (⟨1, 0, 0, false, [false], 0, none, 0, none, false, true⟩ :
        RamdumpDevice).readers_left := by
  constructor
  · rfl
  · decide

/-- Witness for `read_abort_resets`: a ready consumer (readers_left = 2)
reading while aborted gets `-ETIME` and the count drops to 1. -/
theorem read_abort_resets_witness :
    (ramdump_read (⟨1, 2, 0, false, [true], 0, none, 0, none, false, true⟩ : RamdumpDevice)
        0 false 10 3 ⟨false, true, true, false, false⟩).ret = ReadRet.done (-ETIME) ∧
    (ramdump_read (⟨1, 2, 0, false, [true], 0, none, 0, none, false, true⟩ : RamdumpDevice)
        0 false 10 3 ⟨false, true, true, false, false⟩).dev.readers_left = 1 := by
  have h := read_abort_resets
    (⟨1, 2, 0, false, [true], 0, none, 0, none, false, true⟩ : RamdumpDevice)
    0 false 10 3 ⟨false, true, true, false, false⟩ rfl rfl (fun _ => rfl)
  refine ⟨h.1, ?_⟩
  rw [h.2.1]
  decide

theorem sumSizes_take_succ (segs : List Segment) (i : Nat) (h : i < segs.length) :
    sumSizes (segs.take (i + 1)) = sumSizes (segs.take i) + (segs.getD i seg0).size := by
  induction segs generalizing i with
  | nil => simp at h
  | cons s rest ih =>
    cases i with
    | zero => simp [sumSizes]
    | succ i' =>
      have hrec := ih i' (by simpa using h)
      simp only [List.take_succ_cons, List.getD_cons_succ]
      simp only [sumSizes, List.map_cons, List.sum_cons] at hrec ⊢
      omega

theorem offset_translate_at (segs : List Segment) (off i : Nat)
    (hi : i < segs.length)
    (h1 : sumSizes (segs.take i) ≤ off)
    (h2 : off < sumSizes (segs.take (i + 1))) :
    offset_translate off segs =
      (((segs.getD i seg0).address + (off - sumSizes (segs.take i))) % U64,
       (segs.getD i seg0).size - (off - sumSizes (segs.take i)),
       ((segs.getD i seg0).v_address).map
         (fun p => (p + (off - sumSizes (segs.take i))) % U64)) := by
  induction segs generalizing off i with
  | nil => simp at hi
  | cons s rest ih =>
    cases i with
    | zero =>
      have hs : off < s.size := by
        simpa [sumSizes] using h2
      simp only [offset_translate]
      rw [if_neg (by omega)]
      simp [sumSizes]
    | succ i' =>
      have h1' : s.size + sumSizes (rest.take i') ≤ off := by
        simpa [sumSizes] using h1
      have h2' : off - s.size < sumSizes (rest.take (i' + 1)) := by
        have h2'' : off < s.size + sumSizes (rest.take (i' + 1)) := by
          simpa [sumSizes] using h2
        omega
      simp only [offset_translate]
      rw [if_pos (by omega)]
      rw [ih (off - s.size) i' (by simpa using hi) (by omega) h2']
      simp only [List.getD_cons_succ, List.take_succ_cons]
      have harith : off - s.size - sumSizes (rest.take i') =
          off - sumSizes (s :: rest.take i') := by
        simp only [sumSizes, List.map_cons, List.sum_cons]
        omega
      rw [harith]

theorem offset_translate_end (segs : List Segment) (off : Nat)
    (h : sumSizes segs ≤ off) : offset_translate off segs = (0, 0, none) := by
  induction segs generalizing off with
  | nil => rfl
  | cons s rest ih =>
    have hs : s.size ≤ off := by
      simp only [sumSizes, List.map_cons, List.sum_cons] at h
      omega
    simp only [offset_translate]
    rw [if_pos hs]
    refine ih _ ?_
    simp only [sumSizes, List.map_cons, List.sum_cons] at h ⊢
    omega

theorem ramdump_read_seg_ops_ext (dev : RamdumpDevice) (idx count pos origPos : Nat)
    (ops : List CopyOp) (o : ReadOracle) :
    ∃ tail, (ramdump_read_seg dev idx count pos origPos ops o).ops = ops ++ tail := by
  by_cases h1 : (offset_translate (pos - dev.elfcore_size) (dev.segments.getD [])).2.1 = 0
  · exact ⟨[], by simp [ramdump_read_seg, h1, readDone]⟩
  · by_cases h2 : ((offset_translate (pos - dev.elfcore_size) (dev.segments.getD [])).2.2 = none ∧
      o.remapOk = false)
    · exact ⟨[], by simp [ramdump_read_seg, h1, h2, readDone]⟩
    · by_cases h3 : o.vzallocOk = false
      · exact ⟨[], by simp [ramdump_read_seg, h1, h2, h3, readDone]⟩
      · by_cases h4 : o.userFaultData = true
        · exact ⟨[], by simp [ramdump_read_seg, h1, h2, h3, h4, readDone]⟩
        · exact ⟨[CopyOp.fromMem
            (offset_translate (pos - dev.elfcore_size) (dev.segments.getD [])).1
            (min (min count MAX_IOREMAP_SIZE)
              (offset_translate (pos - dev.elfcore_size) (dev.segments.getD [])).2.1)],
            by simp [ramdump_read_seg, h1, h2, h3, h4]⟩

/-- Claim C2: `read` at logical offset `o` indexes the concatenated
stream header-then-segments.  (1) If `o < H` the first bytes returned
come from the header at offset `o` (bounded by the requested length).
(2) If `H ≤ o` and `o - H` falls inside segment `i` (the first segment
whose cumulative size exceeds `o - H`), the copy served is from segment
`i` starting at its byte `o - H - Σ_j<i size_j`, for at most the
remaining bytes of that segment.  (3) At or past `H + Σ size_j`, read
returns 0 bytes (clean end-of-stream).  (4) Concretely, for sizes
`[10, 20]` at addresses 1000/2000 with `H = 0`: offset 5 reads 5 bytes
from segment 0 at its byte 5; offset 15 reads 15 bytes from segment 1
starting at its byte 5; offset 30 returns 0 bytes. -/
theorem read_stream_layout :
    (∀ (dev : RamdumpDevice) (idx count pos : Nat) (o : ReadOracle),
      dev.consumer_list.getD idx false = true →
      dev.abort_ramdump = false →
      o.interrupted = false →
      o.userFaultHdr = false →
      pos < dev.elfcore_size →
      (ramdump_read dev idx false count pos o).ops.head? =
        some (CopyOp.fromHeader pos (min (dev.elfcore_size - pos) count))) ∧
    (∀ (dev : RamdumpDevice) (idx count pos : Nat) (o : ReadOracle)
        (segs : List Segment) (i : Nat),
      dev.consumer_list.getD idx false = true →
      dev.abort_ramdump = false →
      o.interrupted = false →
      o.remapOk = true →
      o.vzallocOk = true →
      o.userFaultData = false →
      dev.segments = some segs →
      dev.elfcore_size ≤ pos →
      i < segs.length →
      sumSizes (segs.take i) ≤ pos - dev.elfcore_size →
      pos - dev.elfcore_size < sumSizes (segs.take (i + 1)) →
      (ramdump_read dev idx false count pos o).ops =
        [CopyOp.fromMem
          (((segs.getD i seg0).address +
            ((pos - dev.elfcore_size) - sumSizes (segs.take i))) % U64)
          (min (min count MAX_IOREMAP_SIZE)
            ((segs.getD i seg0).size -
              ((pos - dev.elfcore_size) - sumSizes (segs.take i))))] ∧
      (ramdump_read dev idx false count pos o).ret =
        ReadRet.done ((min (min count MAX_IOREMAP_SIZE)
          ((segs.getD i seg0).size -
            ((pos - dev.elfcore_size) - sumSizes (segs.take i))) : Nat) : Int)) ∧
    (∀ (dev : RamdumpDevice) (idx count pos : Nat) (o : ReadOracle)
        (segs : List Segment),
      dev.consumer_list.getD idx false = true →
      dev.abort_ramdump = false →
      o.interrupted = false →
      dev.segments = some segs →
      dev.elfcore_size + sumSizes segs ≤ pos →
      (ramdump_read dev idx false count pos o).ret = ReadRet.done 0 ∧
      (ramdump_read dev idx false count pos o).ops = []) ∧
    ((ramdump_read (⟨1, 1, -1, false, [true], 2,
        some [⟨none, 1000, none, 10⟩, ⟨none, 2000, none, 20⟩], 0, none, false, false⟩ :
        RamdumpDevice) 0 false 100 5 ⟨false, true, true, false, false⟩).ret =
        ReadRet.done 5 ∧
      (ramdump_read (⟨1, 1, -1, false, [true], 2,
        some [⟨none, 1000, none, 10⟩, ⟨none, 2000, none, 20⟩], 0, none, false, false⟩ :
        RamdumpDevice) 0 false 100 5 ⟨false, true, true, false, false⟩).ops =
        [CopyOp.fromMem 1005 5]) ∧
    ((ramdump_read (⟨1, 1, -1, false, [true], 2,
        some [⟨none, 1000, none, 10⟩, ⟨none, 2000, none, 20⟩], 0, none, false, false⟩ :
        RamdumpDevice) 0 false 100 15 ⟨false, true, true, false, false⟩).ret =
        ReadRet.done 15 ∧
      (ramdump_read (⟨1, 1, -1, false, [true], 2,
        some [⟨none, 1000, none, 10⟩, ⟨none, 2000, none, 20⟩], 0, none, false, false⟩ :
        RamdumpDevice) 0 false 100 15 ⟨false, true, true, false, false⟩).ops =
        [CopyOp.fromMem 2005 15]) ∧
    ((ramdump_read (⟨1, 1, -1, false, [true], 2,
        some [⟨none, 1000, none, 10⟩, ⟨none, 2000, none, 20⟩], 0, none, false, false⟩ :
        RamdumpDevice) 0 false 100 30 ⟨false, true, true, false, false⟩).ret =
        ReadRet.done 0 ∧
      (ramdump_read (⟨1, 1, -1, false, [true], 2,
        some [⟨none, 1000, none, 10⟩, ⟨none, 2000, none, 20⟩], 0, none, false, false⟩ :
        RamdumpDevice) 0 false 100 30 ⟨false, true, true, false, false⟩).ops = []) := by
  refine ⟨?_, ?_, ?_, by constructor <;> decide, by constructor <;> decide,
    by constructor <;> decide⟩
  · intro dev idx count pos o hr habort hint hfault hpos
    have hr' : dev.consumer_list[idx]?.getD false = true := by simpa using hr
    have hred : ramdump_read dev idx false count pos o = ramdump_read_hdr dev idx count pos o := by
      simp [ramdump_read, hr', habort, hint]
    rw [hred]
    simp only [ramdump_read_hdr]
    rw [if_pos hpos, if_neg (by simp [hfault])]
    by_cases hc : count - min (dev.elfcore_size - pos) count = 0
    · rw [if_pos hc]
      rfl
    · rw [if_neg hc]
      obtain ⟨tail, htail⟩ := ramdump_read_seg_ops_ext dev idx
        (count - min (dev.elfcore_size - pos) count)
        (pos + min (dev.elfcore_size - pos) count) pos
        [CopyOp.fromHeader pos (min (dev.elfcore_size - pos) count)] o
      rw [htail]
      rfl
  · intro dev idx count pos o segs i hr habort hint hremap hvz hfd hsegs hposH hi hlo hhi
    have hr' : dev.consumer_list[idx]?.getD false = true := by simpa using hr
    have hred : ramdump_read dev idx false count pos o = ramdump_read_hdr dev idx count pos o := by
      simp [ramdump_read, hr', habort, hint]
    have hdl : (segs.getD i seg0).size -
        ((pos - dev.elfcore_size) - sumSizes (segs.take i)) ≠ 0 := by
      have := sumSizes_take_succ segs i hi
      omega
    have htr := offset_translate_at segs (pos - dev.elfcore_size) i hi hlo hhi
    rw [hred]
    simp only [ramdump_read_hdr]
    rw [if_neg (by omega)]
    simp only [ramdump_read_seg, hsegs, Option.getD_some, htr]
    rw [if_neg hdl, if_neg (by simp [hremap]), if_neg (by simp [hvz]),
      if_neg (by simp [hfd])]
    refine ⟨by simp, ?_⟩
    have harith : (pos + min (min count MAX_IOREMAP_SIZE)
        ((segs.getD i seg0).size - ((pos - dev.elfcore_size) - sumSizes (segs.take i)))) - pos =
        min (min count MAX_IOREMAP_SIZE)
          ((segs.getD i seg0).size - ((pos - dev.elfcore_size) - sumSizes (segs.take i))) := by
      omega
    exact congrArg (fun n : Nat => ReadRet.done (n : Int)) harith
  · intro dev idx count pos o segs hr habort hint hsegs hend
    have hr' : dev.consumer_list[idx]?.getD false = true := by simpa using hr
    have hred : ramdump_read dev idx false count pos o = ramdump_read_hdr dev idx count pos o := by
      simp [ramdump_read, hr', habort, hint]
    have htr := offset_translate_end segs (pos - dev.elfcore_size) (by omega)
    rw [hred]
    simp only [ramdump_read_hdr]
    rw [if_neg (by omega)]
    simp only [ramdump_read_seg, hsegs, Option.getD_some, htr]
    simp [readDone]

/-- Witness for `read_stream_layout`: the header branch applied to a
one-segment ELF32 device (header size 84) at offset 0 with a 10-byte
request serves bytes 0-9 of the header. -/
theorem read_stream_layout_witness :
    (ramdump_read (⟨1, 1, -1, false, [true], 1, some [⟨none, 4096, none, 256⟩], 84,
        some (CoreHeader.elf32Core (buildElf32Ehdr 1)
          (buildElf32Phdrs [⟨none, 4096, none, 256⟩] 84)), false, false⟩ : RamdumpDevice)
        0 false 10 0 ⟨false, true, true, false, false⟩).ops.head? =
      some (CopyOp.fromHeader 0 10) := by
  have h := read_stream_layout.1
    (⟨1, 1, -1, false, [true], 1, some [⟨none, 4096, none, 256⟩], 84,
        some (CoreHeader.elf32Core (buildElf32Ehdr 1)
          (buildElf32Phdrs [⟨none, 4096, none, 256⟩] 84)), false, false⟩ : RamdumpDevice)
    0 10 0 ⟨false, true, true, false, false⟩ rfl rfl rfl rfl (by decide)
  rw [h]
  decide

theorem ramdump_read_seg_props (dev : RamdumpDevice) (idx count pos origPos : Nat)
    (ops : List CopyOp) (o : ReadOracle) (hpo : origPos ≤ pos) :
    (∀ r, (ramdump_read_seg dev idx count pos origPos ops o).ret = ReadRet.done r →
      r ≤ (((pos - origPos) + count : Nat) : Int)) ∧
    (∀ a l, CopyOp.fromMem a l ∈ (ramdump_read_seg dev idx count pos origPos ops o).ops →
      CopyOp.fromMem a l ∈ ops ∨
      (l ≤ MAX_IOREMAP_SIZE ∧
       l ≤ (offset_translate (pos - dev.elfcore_size) (dev.segments.getD [])).2.1 ∧
       l ≤ count)) := by
  by_cases h1 : (offset_translate (pos - dev.elfcore_size) (dev.segments.getD [])).2.1 = 0
  · refine ⟨fun r hr => ?_, fun a l hl => ?_⟩
    · simp [ramdump_read_seg, h1, readDone] at hr
      omega
    · simp only [ramdump_read_seg, h1, if_pos, readDone] at hl
      exact Or.inl (by simpa using hl)
  · by_cases h2 : ((offset_translate (pos - dev.elfcore_size) (dev.segments.getD [])).2.2 = none ∧
      o.remapOk = false)
    · refine ⟨fun r hr => ?_, fun a l hl => ?_⟩
      · simp [ramdump_read_seg, h1, h2, readDone, ENOMEM] at hr
        omega
      · simp [ramdump_read_seg, h1, h2, readDone] at hl
        exact Or.inl (by simpa using hl)
    · by_cases h3 : o.vzallocOk = false
      · refine ⟨fun r hr => ?_, fun a l hl => ?_⟩
        · simp [ramdump_read_seg, h1, h2, h3, readDone, ENOMEM] at hr
          omega
        · simp [ramdump_read_seg, h1, h2, h3, readDone] at hl
          exact Or.inl (by simpa using hl)
      · by_cases h4 : o.userFaultData = true
        · refine ⟨fun r hr => ?_, fun a l hl => ?_⟩
          · simp [ramdump_read_seg, h1, h2, h3, h4, readDone, EFAULT] at hr
            omega
          · simp [ramdump_read_seg, h1, h2, h3, h4, readDone] at hl
            exact Or.inl (by simpa using hl)
        · refine ⟨fun r hr => ?_, fun a l hl => ?_⟩
          · simp [ramdump_read_seg, h1, h2, h3, h4] at hr
            omega
          · simp [ramdump_read_seg, h1, h2, h3, h4] at hl
            rcases hl with hin | ⟨ha, hll⟩
            · exact Or.inl hin
            · refine Or.inr ⟨?_, ?_, ?_⟩ <;> omega

/-- Claim C7 (amended): the segment-memory copy of a single `read` call
is at most `MAX_IOREMAP_SIZE` (1 MiB) and is further bounded by the
remaining bytes of the current segment and by the caller's remaining
requested length; the total bytes returned by any `read` call are
bounded by the caller's requested length.  (Header bytes served in the
same call are only bounded by the request, so a call serving a header
larger than 1 MiB returns more than 1 MiB — see the counterexample to
the claim as stated.) -/
theorem read_chunk_bounds (dev : RamdumpDevice) (idx : Nat) (nb : Bool) (count pos : Nat)
    (o : ReadOracle) :
    (∀ r, (ramdump_read dev idx nb count pos o).ret = ReadRet.done r → r ≤ (count : Int)) ∧
    (∀ a l, CopyOp.fromMem a l ∈ (ramdump_read dev idx nb count pos o).ops →
      l ≤ MAX_IOREMAP_SIZE ∧
      l ≤ (offset_translate (max pos dev.elfcore_size - dev.elfcore_size)
            (dev.segments.getD [])).2.1 ∧
      l ≤ count) := by
  simp only [ramdump_read]
  by_cases c1 : nb = true ∧ dev.consumer_list.getD idx false = false
  · rw [if_pos c1]
    refine ⟨fun r hr => ?_, fun a l hl => ?_⟩
    · have h' : ReadRet.done (-EAGAIN) = ReadRet.done r := hr
      injection h' with h'
      simp only [EAGAIN] at h'
      omega
    · simp at hl
  · rw [if_neg c1]
    by_cases c2 : dev.consumer_list.getD idx false = false ∧ dev.abort_ramdump = false
    · rw [if_pos c2]
      refine ⟨fun r hr => ?_, fun a l hl => ?_⟩
      · simp at hr
      · simp at hl
    · rw [if_neg c2]
      by_cases c3 : o.interrupted = true
      · rw [if_pos c3]
        refine ⟨fun r hr => ?_, fun a l hl => ?_⟩
        · have h' : ReadRet.done (-ERESTARTSYS) = ReadRet.done r := hr
          injection h' with h'
          simp only [ERESTARTSYS] at h'
          omega
        · simp at hl
      · rw [if_neg c3]
        by_cases c4 : dev.abort_ramdump = true
        · rw [if_pos c4]
          refine ⟨fun r hr => ?_, fun a l hl => ?_⟩
          · have h' : ReadRet.done (-ETIME) = ReadRet.done r := hr
            injection h' with h'
            simp only [ETIME] at h'
            omega
          · simp [readDone] at hl
        · rw [if_neg c4]
          simp only [ramdump_read_hdr]
          by_cases hpos : pos < dev.elfcore_size
          · rw [if_pos hpos]
            by_cases hfault : o.userFaultHdr = true ∧ 0 < min (dev.elfcore_size - pos) count
            · rw [if_pos hfault]
              refine ⟨fun r hr => ?_, fun a l hl => ?_⟩
              · have h' : ReadRet.done (-EFAULT) = ReadRet.done r := hr
                injection h' with h'
                simp only [EFAULT] at h'
                omega
              · simp [readDone] at hl
            · rw [if_neg hfault]
              by_cases hc : count - min (dev.elfcore_size - pos) count = 0
              · rw [if_pos hc]
                refine ⟨fun r hr => ?_, fun a l hl => ?_⟩
                · have h' : ReadRet.done ((min (dev.elfcore_size - pos) count : Nat) : Int) =
                      ReadRet.done r := hr
                  injection h' with h'
                  omega
                · simp at hl
              · rw [if_neg hc]
                have hprops := ramdump_read_seg_props dev idx
                  (count - min (dev.elfcore_size - pos) count)
                  (pos + min (dev.elfcore_size - pos) count) pos
                  [CopyOp.fromHeader pos (min (dev.elfcore_size - pos) count)] o (by omega)
                refine ⟨fun r hr => ?_, fun a l hl => ?_⟩
                · have hb := hprops.1 r hr
                  have heq : (pos + min (dev.elfcore_size - pos) count) - pos +
                      (count - min (dev.elfcore_size - pos) count) = count := by omega
                  rw [heq] at hb
                  exact hb
                · rcases hprops.2 a l hl with hin | ⟨hb1, hb2, hb3⟩
                  · simp at hin
                  · refine ⟨hb1, ?_, by omega⟩
                    have heq : (pos + min (dev.elfcore_size - pos) count) - dev.elfcore_size =
                        max pos dev.elfcore_size - dev.elfcore_size := by omega
                    rw [heq] at hb2
                    exact hb2
          · rw [if_neg hpos]
            have hprops := ramdump_read_seg_props dev idx count pos pos [] o (Nat.le_refl pos)
            refine ⟨fun r hr => ?_, fun a l hl => ?_⟩
            · have hb := hprops.1 r hr
              simpa using hb
            · rcases hprops.2 a l hl with hin | ⟨hb1, hb2, hb3⟩
              · simp at hin
              · refine ⟨hb1, ?_, hb3⟩
                have heq : pos - dev.elfcore_size =
                    max pos dev.elfcore_size - dev.elfcore_size := by omega
                rw [heq] at hb2
                exact hb2

/-- Counterexample to claim C7 as stated: an ELF32 session over 32767
segments has a header of 52 + 32*32767 = 1048596 bytes (more than 1 MiB);
a single read of that many bytes at offset 0 is served entirely from the
header and returns 1048596 bytes in one call, exceeding the claimed
1 MiB bound. -/
theorem read_chunk_bounds_cx :
    (ramdump_read (⟨1, 1, -1, false, [true], 32767,
        some (List.replicate 32767 seg0), elf32HeaderSize 32767,
        some (CoreHeader.elf32Core (buildElf32Ehdr 32767)
          (buildElf32Phdrs (List.replicate 32767 seg0) (elf32HeaderSize 32767))),
        false, false⟩ : RamdumpDevice)
        0 false 1048596 0 ⟨false, true, true, false, false⟩).ret =
      ReadRet.done 1048596 ∧ MAX_IOREMAP_SIZE < 1048596 := by
  constructor
  · decide
  · decide

/-- Witness for `read_chunk_bounds`: the 5-byte read served from segment
0 of the `[10, 20]` device stays within the caller's 100-byte request. -/
theorem read_chunk_bounds_witness :
    (ramdump_read (⟨1, 1, -1, false, [true], 2,
        some [⟨none, 1000, none, 10⟩, ⟨none, 2000, none, 20⟩], 0, none, false, false⟩ :
        RamdumpDevice) 0 false 100 5 ⟨false, true, true, false, false⟩).ret =
      ReadRet.done 5 ∧ (5 : Int) ≤ (100 : Int) := by
  refine ⟨by decide, ?_⟩
  have h := (read_chunk_bounds (⟨1, 1, -1, false, [true], 2,
      some [⟨none, 1000, none, 10⟩, ⟨none, 2000, none, 20⟩], 0, none, false, false⟩ :
      RamdumpDevice) 0 false 100 5 ⟨false, true, true, false, false⟩).1 5 (by decide)
  exact_mod_cast h

/-- What the environment does while the producer waits on the completion
(ramdump.c lines 516-517): concurrent readers and `open`/`release` calls
may change exactly the consumer set, the `data_ready` flags, the
outstanding-reader count, the session status and the completion state;
they never touch the installed segment table or the header buffer.
`timedOut` is whether `wait_for_completion_timeout` returned 0. -/
structure WaitOracle where
  timedOut : Bool
  consumers : Nat
  consumer_list : List Bool
  readers_left : Int
  ramdump_status : Int
  ramdump_complete : Bool

/-- Apply the concurrent reader/open/close activity observed during the
producer's wait: only reader-writable fields change. -/
def applyReaders (dev : RamdumpDevice) (w : WaitOracle) : RamdumpDevice :=
  { dev with consumers := w.consumers, consumer_list := w.consumer_list,
             readers_left := w.readers_left, ramdump_status := w.ramdump_status,
             ramdump_complete := w.ramdump_complete }

/-- The producer's final status check, ramdump.c line 529 / 663:
`ret = (rd_dev->ramdump_status == 0) ? 0 : -EPIPE`. -/
def ramdump_session_ret (status : Int) : Int := if status = 0 then 0 else -EPIPE

/-- Embeds the common session tail of `_do_ramdump`/`_do_minidump`
(ramdump.c lines 503-534 and 638-669): mark every currently-registered
consumer ready, preset a failed status, clear the abort flag, re-arm the
completion, set `readers_left` to the consumer count, wake the readers
and wait (the wait's effect is the `WaitOracle`); on timeout set the
abort flag and return `-EPIPE` (after the SRCU grace period), otherwise
return by the status check; finally always zero `elfcore_size`, free
`elfcore_buf` and set it to NULL. -/
def sessionRun (dev0 : RamdumpDevice) (w : WaitOracle) : RamdumpDevice × Int :=
  let dev1 := { dev0 with consumer_list := dev0.consumer_list.map (fun _ => true),
                          ramdump_status := -1, abort_ramdump := false,
                          ramdump_complete := false,
                          readers_left := (dev0.consumers : Int) }
  let dev2 := applyReaders dev1 w
  let devr := if w.timedOut then ({ dev2 with abort_ramdump := true }, (-EPIPE : Int))
              else (dev2, ramdump_session_ret dev2.ramdump_status)
  ({ devr.1 with elfcore_size := 0, elfcore_buf := none }, devr.2)

/-- Embeds `_do_ramdump`, ramdump.c lines 431-536: fail with `-EPIPE`
when no consumer is registered (before touching anything); rewrite the
segment sizes when `complete_ramdump`; install the segment table; in ELF
mode set `elfcore_size` and build the ELF32 core header, failing with
`-ENOMEM` (leaving `elfcore_size` set and the table installed) when the
allocation fails; then run the session.  `allocOk` is the `kzalloc`
outcome; `nsegments` is the segment list's length. -/
def _do_ramdump (dev : RamdumpDevice) (segs : List Segment)
    (use_elf complete_ramdump allocOk : Bool) (w : WaitOracle) : RamdumpDevice × Int :=
  if dev.consumers = 0 then (dev, -EPIPE)
  else
    let segs1 := if complete_ramdump then compactSegments segs else segs
    let dev1 := { dev with segments := some segs1, nsegments := segs1.length }
    if use_elf then
      if allocOk = false then
        ({ dev1 with elfcore_size := elf32HeaderSize segs1.length, elfcore_buf := none },
         -ENOMEM)
      else
        sessionRun
          ({ dev1 with elfcore_size := elf32HeaderSize segs1.length,
                       elfcore_buf := some (CoreHeader.elf32Core (buildElf32Header segs1).1
                         (buildElf32Header segs1).2) }) w
    else sessionRun dev1 w

/-- Embeds `_do_minidump`, ramdump.c lines 556-670: fail with `-EPIPE`
when no consumer is registered; install the segment table; set
`elfcore_size` for the section-mode header and build it, failing with
`-ENOMEM` (leaving `elfcore_size` set and the table installed) when the
allocation fails; then run the session. -/
def _do_minidump (dev : RamdumpDevice) (segs : List Segment) (allocOk : Bool)
    (w : WaitOracle) : RamdumpDevice × Int :=
  if dev.consumers = 0 then (dev, -EPIPE)
  else
    let dev1 := { dev with segments := some segs, nsegments := segs.length }
    if allocOk = false then
      ({ dev1 with elfcore_size := minidumpHeaderSize segs.length, elfcore_buf := none },
       -ENOMEM)
    else
      sessionRun
        ({ dev1 with elfcore_size := minidumpHeaderSize segs.length,
                     elfcore_buf := some (CoreHeader.sectionCore (buildMinidumpHeader segs)) }) w

/-- Embeds the exported `do_ramdump` (ramdump.c lines 672-679). -/
def do_ramdump (dev : RamdumpDevice) (segs : List Segment) (allocOk : Bool)
    (w : WaitOracle) : RamdumpDevice × Int :=
  _do_ramdump dev segs false dev.complete_ramdump allocOk w

/-- Embeds the exported `do_elf_ramdump` (ramdump.c lines 694-702). -/
def do_elf_ramdump (dev : RamdumpDevice) (segs : List Segment) (allocOk : Bool)
    (w : WaitOracle) : RamdumpDevice × Int :=
  _do_ramdump dev segs true dev.complete_ramdump allocOk w

/-- Embeds the exported `do_minidump_elf32` (ramdump.c lines 687-692). -/
def do_minidump_elf32 (dev : RamdumpDevice) (segs : List Segment) (allocOk : Bool)
    (w : WaitOracle) : RamdumpDevice × Int :=
  _do_ramdump dev segs true false allocOk w

/-- Embeds the exported `do_minidump` (ramdump.c lines 681-685). -/
def do_minidump (dev : RamdumpDevice) (segs : List Segment) (allocOk : Bool)
    (w : WaitOracle) : RamdumpDevice × Int :=
  _do_minidump dev segs allocOk w

/-- Claim C1 (amended): for `_do_ramdump` (ELF/raw) and `_do_minidump`,
on the success, timeout and session-failed outcomes the CoreHeader
buffer is freed (NULL) and the recorded header size reset to 0 — but the
SegmentTable reference is left installed, not cleared; on `NoConsumers`
the device is returned completely unchanged with `-EPIPE`; on the
out-of-memory path the buffer is NULL but the recorded header size keeps
its freshly computed nonzero value and the segment table stays
installed, with `-ENOMEM` returned. -/
theorem dump_session_cleanup (dev : RamdumpDevice) (segs : List Segment)
    (u c a a' : Bool) (w w' : WaitOracle) :
    (dev.consumers ≠ 0 → (u = true → a = true) →
      (_do_ramdump dev segs u c a w).1.elfcore_buf = none ∧
      (_do_ramdump dev segs u c a w).1.elfcore_size = 0 ∧
      (_do_ramdump dev segs u c a w).1.segments =
        some (if c then compactSegments segs else segs)) ∧
    (dev.consumers = 0 → _do_ramdump dev segs u c a w = (dev, -EPIPE)) ∧
    (dev.consumers ≠ 0 → u = true → a = false →
      (_do_ramdump dev segs u c a w).1.elfcore_size =
        elf32HeaderSize (if c then compactSegments segs else segs).length ∧
      (_do_ramdump dev segs u c a w).1.elfcore_size ≠ 0 ∧
      (_do_ramdump dev segs u c a w).1.elfcore_buf = none ∧
      (_do_ramdump dev segs u c a w).2 = -ENOMEM ∧
      (_do_ramdump dev segs u c a w).1.segments =
        some (if c then compactSegments segs else segs)) ∧
    (dev.consumers ≠ 0 → a' = true →
      (_do_minidump dev segs a' w').1.elfcore_buf = none ∧
      (_do_minidump dev segs a' w').1.elfcore_size = 0 ∧
      (_do_minidump dev segs a' w').1.segments = some segs) ∧
    (dev.consumers = 0 → _do_minidump dev segs a' w' = (dev, -EPIPE)) ∧
    (dev.consumers ≠ 0 → a' = false →
      (_do_minidump dev segs a' w').1.elfcore_size = minidumpHeaderSize segs.length ∧
      (_do_minidump dev segs a' w').1.elfcore_size ≠ 0 ∧
      (_do_minidump dev segs a' w').1.elfcore_buf = none ∧
      (_do_minidump dev segs a' w').2 = -ENOMEM ∧
      (_do_minidump dev segs a' w').1.segments = some segs) := by
  refine ⟨?_, ?_, ?_, ?_, ?_, ?_⟩
  · intro hc hua
    cases hu : u with
    | false =>
      cases hw : w.timedOut <;>
        simp [_do_ramdump, hc, hu, sessionRun, applyReaders, hw]
    | true =>
      have ha := hua hu
      cases hw : w.timedOut <;>
        simp [_do_ramdump, hc, hu, ha, sessionRun, applyReaders, hw]
  · intro hc
    simp [_do_ramdump, hc]
  · intro hc hu ha
    refine ⟨?_, ?_, ?_, ?_, ?_⟩ <;>
      simp [_do_ramdump, hc, hu, ha, elf32HeaderSize, elf32EhdrSize, elf32PhdrSize]
  · intro hc ha
    cases hw : w'.timedOut <;>
      simp [_do_minidump, hc, ha, sessionRun, applyReaders, hw]
  · intro hc
    simp [_do_minidump, hc]
  · intro hc ha
    refine ⟨?_, ?_, ?_, ?_, ?_⟩ <;>
      simp [_do_minidump, hc, ha, minidumpHeaderSize, elfNativeEhdrSize, elfNativeShdrSize,
        MAX_STRTBL_SIZE]

/-- Counterexample to claim C1 as stated: when the ELF header allocation
fails, `_do_ramdump` returns with the recorded header size still at its
nonzero computed value (84 here, not reset to 0) and with the segment
table still installed (not cleared) — and even on success the segment
table reference is never cleared. -/
theorem dump_session_cleanup_cx :
    (_do_ramdump (⟨1, 0, 0, false, [true], 0, none, 0, none, false, false⟩ : RamdumpDevice)
        [⟨none, 4096, none, 256⟩] true false false
        ⟨false, 1, [true], 0, 0, true⟩).1.elfcore_size ≠ 0 ∧
    (_do_ramdump (⟨1, 0, 0, false, [true], 0, none, 0, none, false, false⟩ : RamdumpDevice)
        [⟨none, 4096, none, 256⟩] true false false
        ⟨false, 1, [true], 0, 0, true⟩).1.segments ≠ none := by
  constructor
  · decide
  · decide

/-- Witness for `dump_session_cleanup`: a raw-mode dump on a one-consumer
device ends with a NULL header buffer, zero header size, and the segment
table still installed. -/
theorem dump_session_cleanup_witness :
    (_do_ramdump (⟨1, 0, 0, false, [true], 0, none, 0, none, false, false⟩ : RamdumpDevice)
        [⟨none, 4096, none, 256⟩] false false true
        ⟨false, 1, [false], 0, 0, true⟩).1.elfcore_buf = none ∧
    (_do_ramdump (⟨1, 0, 0, false, [true], 0, none, 0, none, false, false⟩ : RamdumpDevice)
        [⟨none, 4096, none, 256⟩] false false true
        ⟨false, 1, [false], 0, 0, true⟩).1.elfcore_size = 0 ∧
    (_do_ramdump (⟨1, 0, 0, false, [true], 0, none, 0, none, false, false⟩ : RamdumpDevice)
        [⟨none, 4096, none, 256⟩] false false true
        ⟨false, 1, [false], 0, 0, true⟩).1.segments = some [⟨none, 4096, none, 256⟩] := by
  have h := (dump_session_cleanup
    (⟨1, 0, 0, false, [true], 0, none, 0, none, false, false⟩ : RamdumpDevice)
    [⟨none, 4096, none, 256⟩] false false true true
    ⟨false, 1, [false], 0, 0, true⟩ ⟨false, 1, [false], 0, 0, true⟩).1
    (by decide) (fun hu => by simp at hu)
  refine ⟨h.1, h.2.1, ?_⟩
  rw [h.2.2]
  decide

/-- Claim C9: a dump request on a device with zero registered consumers
fails immediately with `-EPIPE` (NoConsumers), in raw/ELF mode and in
minidump mode alike, leaving the device state completely unchanged — no
compaction, no segment-table install, no header build, no consumer-state
change, and no wait. -/
theorem dump_no_consumers (dev : RamdumpDevice) (segs : List Segment)
    (u c a a' : Bool) (w w' : WaitOracle) (h : dev.consumers = 0) :
    _do_ramdump dev segs u c a w = (dev, -EPIPE) ∧
    _do_minidump dev segs a' w' = (dev, -EPIPE) := by
  constructor
  · simp [_do_ramdump, h]
  · simp [_do_minidump, h]

/-- Witness for `dump_no_consumers` on an empty fresh device. -/
theorem dump_no_consumers_witness :
    _do_ramdump (⟨0, 0, 0, false, [], 0, none, 0, none, false, false⟩ : RamdumpDevice)
        [⟨none, 4096, none, 256⟩] true true true ⟨false, 0, [], 0, 0, false⟩ =
      ((⟨0, 0, 0, false, [], 0, none, 0, none, false, false⟩ : RamdumpDevice), -EPIPE) ∧
    _do_minidump (⟨0, 0, 0, false, [], 0, none, 0, none, false, false⟩ : RamdumpDevice)
        [⟨none, 4096, none, 256⟩] true ⟨false, 0, [], 0, 0, false⟩ =
      ((⟨0, 0, 0, false, [], 0, none, 0, none, false, false⟩ : RamdumpDevice), -EPIPE) := by
  exact dump_no_consumers
    (⟨0, 0, 0, false, [], 0, none, 0, none, false, false⟩ : RamdumpDevice)
    [⟨none, 4096, none, 256⟩] true true true true
    ⟨false, 0, [], 0, 0, false⟩ ⟨false, 0, [], 0, 0, false⟩ rfl

/-- Claim C10: `ramdump_open` adds the new (not-ready) consumer entry and
bumps the consumer count, but also unconditionally overwrites the
device's session status with 0 (success); every other device field is
unchanged.  Consequently, if a reader recorded a fault (`status = -1`)
and another consumer opens before the producer's final status check,
that check (ramdump.c line 529) reports success instead of `-EPIPE`. -/
theorem open_resets_status (dev : RamdumpDevice) :
    (ramdump_open dev).1.ramdump_status = 0 ∧
    (ramdump_open dev).1.consumers = dev.consumers + 1 ∧
    (ramdump_open dev).1.consumer_list = dev.consumer_list ++ [false] ∧
    (ramdump_open dev).2 = dev.consumer_list.length ∧
    (ramdump_open dev).1.readers_left = dev.readers_left ∧
    (ramdump_open dev).1.ramdump_complete = dev.ramdump_complete ∧
    (ramdump_open dev).1.nsegments = dev.nsegments ∧
    (ramdump_open dev).1.segments = dev.segments ∧
    (ramdump_open dev).1.elfcore_size = dev.elfcore_size ∧
    (ramdump_open dev).1.elfcore_buf = dev.elfcore_buf ∧
    (ramdump_open dev).1.complete_ramdump = dev.complete_ramdump ∧
    (ramdump_open dev).1.abort_ramdump = dev.abort_ramdump ∧
    (dev.ramdump_status = -1 →
      ramdump_session_ret dev.ramdump_status = -EPIPE ∧
      ramdump_session_ret (ramdump_open dev).1.ramdump_status = 0) := by
  refine ⟨rfl, rfl, rfl, rfl, rfl, rfl, rfl, rfl, rfl, rfl, rfl, rfl, ?_⟩
  intro hs
  constructor
  · simp [ramdump_session_ret, hs]
  · simp [ramdump_session_ret, ramdump_open]

/-- Witness for `open_resets_status`: opening on a device whose session
status records a fault makes the producer's status check succeed. -/
theorem open_resets_status_witness :
    (ramdump_open (⟨1, 1, -1, false, [true], 0, none, 0, none, false, false⟩ :
        RamdumpDevice)).1.ramdump_status = 0 ∧
    ramdump_session_ret (ramdump_open (⟨1, 1, -1, false, [true], 0, none, 0, none, false,
        false⟩ : RamdumpDevice)).1.ramdump_status = 0 ∧
    ramdump_session_ret (⟨1, 1, -1, false, [true], 0, none, 0, none, false, false⟩ :
        RamdumpDevice).ramdump_status = -EPIPE := by
  have h := open_resets_status
    (⟨1, 1, -1, false, [true], 0, none, 0, none, false, false⟩ : RamdumpDevice)
  have hi := h.2.2.2.2.2.2.2.2.2.2.2.2 rfl
  exact ⟨h.1, hi.2, hi.1⟩

/-- Semantics of `memcpy(dst + dpos, src + spos, n)` on byte stores
modelled as total functions: positions `[dpos, dpos + n)` take the
corresponding source bytes, all others keep their old value. -/
def memcpyN (dst : Nat → Nat) (dpos : Nat) (src : Nat → Nat) (spos n : Nat) : Nat → Nat :=
  fun j => if dpos ≤ j ∧ j < dpos + n then src (spos + (j - dpos)) else dst j

/-- Specification-side plain bulk copy of `size` bytes from source
address `a` into a fresh zeroed buffer (what the spec means by "a plain
bulk copy"); the claimed reference point of the three-phase copy. -/
def bulkCopyDst (a size : Nat) (src : Nat → Nat) : Nat → Nat :=
  fun j => if j < size then src (a + j) else 0

/-- Embeds the unaligned-head phase of the copy in `ramdump_read`,
ramdump.c lines 243-249:

    if ((unsigned long)device_mem & 0x7) {
        bytes_before = 8 - ((unsigned long)device_mem & 0x7);
        memcpy_fromio(alignbuf, device_mem, bytes_before);
        device_mem += bytes_before; alignbuf += bytes_before;
        alignsize -= bytes_before;
    }

Returns `(device_mem, alignbuf offset, alignsize, buffer)`.  `alignsize`
is a `size_t`, so the subtraction wraps (`sub64`) when
`bytes_before > copy_size`; the buffer starts zeroed (`vzalloc`). -/
def copyHead (a size : Nat) (src : Nat → Nat) : Nat × Nat × Nat × (Nat → Nat) :=
  if a % 8 ≠ 0 then
    (a + (8 - a % 8), 8 - a % 8, sub64 size (8 - a % 8),
     memcpyN (fun _ => 0) 0 src a (8 - a % 8))
  else (a, 0, size, fun _ => 0)

/-- Embeds the bulk-middle/narrow-tail phase, ramdump.c lines 251-259:

    if (alignsize & 0x7) {
        bytes_after = alignsize & 0x7;
        memcpy(alignbuf, device_mem, alignsize - bytes_after);
        device_mem += alignsize - bytes_after;
        alignbuf += (alignsize - bytes_after);
        alignsize = bytes_after;
        memcpy_fromio(alignbuf, device_mem, alignsize);
    } else
        memcpy(alignbuf, device_mem, alignsize);

Returns the final buffer and the exclusive end offset of all bytes
written. -/
def copyTail (dmem abuf asz : Nat) (dst : Nat → Nat) (src : Nat → Nat) :
    (Nat → Nat) × Nat :=
  if asz % 8 ≠ 0 then
    (memcpyN (memcpyN dst abuf src dmem (asz - asz % 8))
       (abuf + (asz - asz % 8)) src (dmem + (asz - asz % 8)) (asz % 8),
     abuf + (asz - asz % 8) + asz % 8)
  else (memcpyN dst abuf src dmem asz, abuf + asz)

/-- The full three-phase copy of `ramdump_read` (ramdump.c lines
240-259): returns the destination buffer contents and the total number
of destination bytes written. -/
def alignedCopy (a size : Nat) (src : Nat → Nat) : (Nat → Nat) × Nat :=
  let st := copyHead a size src
  copyTail st.1 st.2.1 st.2.2.1 st.2.2.2 src

theorem copyTail_spec (dmem abuf asz : Nat) (dst src : Nat → Nat) :
    (copyTail dmem abuf asz dst src).2 = abuf + asz ∧
    ∀ j, (copyTail dmem abuf asz dst src).1 j =
      if abuf ≤ j ∧ j < abuf + asz then src (dmem + (j - abuf)) else dst j := by
  by_cases hm : asz % 8 = 0
  · simp only [copyTail, hm]
    rw [if_neg (by simp)]
    exact ⟨rfl, fun j => rfl⟩
  · simp only [copyTail]
    rw [if_pos hm]
    have hle : asz % 8 ≤ asz := Nat.mod_le asz 8
    refine ⟨by omega, fun j => ?_⟩
    simp only [memcpyN]
    split_ifs <;> first
      | rfl
      | (exfalso; omega)
      | (congr 1; omega)

/-- Claim C8 (amended): whenever the source address is 8-byte aligned or
the copy size is at least the distance `8 - a % 8` to the next 8-byte
boundary, the three-phase copy writes exactly `size` bytes and its
buffer agrees everywhere with a plain bulk copy of `size` bytes from the
source.  (When the address is unaligned and the size smaller than that
distance, the `size_t` subtraction `alignsize -= bytes_before` wraps and
the routine is not equivalent to the bulk copy — see the
counterexample.) -/
theorem aligned_copy_refines_bulk (a size : Nat) (src : Nat → Nat)
    (hsize : size < U64) (hal : a % 8 = 0 ∨ 8 - a % 8 ≤ size) :
    (alignedCopy a size src).2 = size ∧
    ∀ j, (alignedCopy a size src).1 j = bulkCopyDst a size src j := by
  by_cases ha : a % 8 = 0
  · have hhead : copyHead a size src = (a, 0, size, fun _ => 0) := by
      simp [copyHead, ha]
    have hred : alignedCopy a size src = copyTail a 0 size (fun _ => 0) src := by
      simp only [alignedCopy, hhead]
    rw [hred]
    obtain ⟨hcount, hcontent⟩ := copyTail_spec a 0 size (fun _ => 0) src
    refine ⟨by omega, fun j => ?_⟩
    rw [hcontent j]
    simp only [bulkCopyDst]
    split_ifs <;> first
      | rfl
      | (exfalso; omega)
      | (congr 1; omega)
  · have hb : 8 - a % 8 ≤ size := hal.resolve_left ha
    have hbpos : 0 < 8 - a % 8 := by omega
    have hsub : sub64 size (8 - a % 8) = size - (8 - a % 8) :=
      sub64_eq_sub size (8 - a % 8) hb hsize
    have hhead : copyHead a size src =
        (a + (8 - a % 8), 8 - a % 8, size - (8 - a % 8),
         memcpyN (fun _ => 0) 0 src a (8 - a % 8)) := by
      simp [copyHead, ha, hsub]
    have hred : alignedCopy a size src =
        copyTail (a + (8 - a % 8)) (8 - a % 8) (size - (8 - a % 8))
          (memcpyN (fun _ => 0) 0 src a (8 - a % 8)) src := by
      simp only [alignedCopy, hhead]
    rw [hred]
    obtain ⟨hcount, hcontent⟩ := copyTail_spec (a + (8 - a % 8)) (8 - a % 8)
      (size - (8 - a % 8)) (memcpyN (fun _ => 0) 0 src a (8 - a % 8)) src
    refine ⟨by omega, fun j => ?_⟩
    rw [hcontent j]
    simp only [memcpyN, bulkCopyDst]
    split_ifs <;> first
      | rfl
      | (exfalso; omega)
      | (congr 1; omega)

/-- A concrete source byte store. -/
def srcByte (j : Nat) : Nat := j % 256

/-- Counterexample to claim C8 as stated: for source address 1 (7 bytes
short of alignment) and copy size 3, the head phase copies 7 bytes and
`alignsize -= bytes_before` wraps around zero as a `size_t`, so the
routine issues `2^64 + 3` destination byte writes instead of the 3 a
plain bulk copy performs — it is not extensionally a bulk copy of
`copy_size` bytes. -/
theorem aligned_copy_refines_bulk_cx :
    (alignedCopy 1 3 srcByte).2 ≠ 3 ∧ (alignedCopy 1 3 srcByte).2 = U64 + 3 := by
  constructor
  · decide
  · decide

/-- Witness for `aligned_copy_refines_bulk` at the unaligned address 1
with size 8: 8 bytes written, and e.g. destination byte 5 equals the
bulk-copy byte. -/
theorem aligned_copy_refines_bulk_witness :
    (alignedCopy 1 8 srcByte).2 = 8 ∧
    (alignedCopy 1 8 srcByte).1 5 = bulkCopyDst 1 8 srcByte 5 := by
  have h := aligned_copy_refines_bulk 1 8 srcByte (by decide) (by decide)
  exact ⟨h.1, h.2 5⟩
